import Mathlib

/-!
Verification of the headache-vault medication/policy core:
a shallow embedding of `src/medication_matcher.py` (name normalization,
exact/fuzzy medication lookup) and of the policy-search and step-therapy
logic in `src/headache_vault_demo.py`, together with theorems settling
the specification claims.

Strings are modelled as `List Char`; similarity scores and thresholds as
rationals (Python floats carry rational values here); regex-based
substitutions of the source are modelled as direct recursive functions
with the same leftmost-match semantics.  Character classes (`\d`, `\s`,
`\w`, lower-casing) follow Python's behaviour on the ASCII range.
-/

set_option maxRecDepth 100000

/-- Characters matched by Python's regex `\s` / `str.split()` (ASCII range). -/
def isSpaceC (c : Char) : Bool :=
  c = ' ' || c = '\t' || c = '\n' || c = '\x0d' || c = '\x0b' || c = '\x0c'

/-- Characters matched by `\d` (ASCII range, `'0'`–`'9'`). -/
def isDigitC (c : Char) : Bool :=
  48 ≤ c.toNat && c.toNat ≤ 57

/-- ASCII letters. -/
def isAlphaC (c : Char) : Bool :=
  (97 ≤ c.toNat && c.toNat ≤ 122) || (65 ≤ c.toNat && c.toNat ≤ 90)

/-- Characters matched by `\w`, used for the `\b` word-boundary test. -/
def isWordC (c : Char) : Bool :=
  isAlphaC c || isDigitC c || c = '_'

/-- `str.lower` on one character (ASCII range, `'A'`–`'Z'`). -/
def lowerC (c : Char) : Char :=
  if 65 ≤ c.toNat && c.toNat ≤ 90 then Char.ofNat (c.toNat + 32) else c

/-- `str.upper` on one character (ASCII range, `'a'`–`'z'`). -/
def upperC (c : Char) : Char :=
  if 97 ≤ c.toNat && c.toNat ≤ 122 then Char.ofNat (c.toNat - 32) else c

/-- `str.lower` on a string. -/
def lowerStr (s : List Char) : List Char :=
  s.map lowerC

/-- Python's `needle in hay` substring test. -/
def containsSub (hay needle : List Char) : Bool :=
  needle.isPrefixOf hay ||
    match hay with
    | [] => false
    | _ :: t => containsSub t needle

/-- `str.strip()`: remove leading and trailing whitespace. -/
def stripWs (s : List Char) : List Char :=
  ((s.dropWhile isSpaceC).reverse.dropWhile isSpaceC).reverse

/-- `str.split()`: maximal runs of non-whitespace characters. -/
def pySplitAux (cur : List Char) : List Char → List (List Char)
  | [] => if cur = [] then [] else [cur.reverse]
  | c :: t =>
    if isSpaceC c then
      if cur = [] then pySplitAux [] t else cur.reverse :: pySplitAux [] t
    else
      pySplitAux (c :: cur) t

def pySplit (s : List Char) : List (List Char) :=
  pySplitAux [] s

/-- `' '.join(words)`. -/
def joinSp : List (List Char) → List Char
  | [] => []
  | [w] => w
  | w :: ws => w ++ ' ' :: joinSp ws

/-- `' '.join(s.split())`: collapse whitespace runs to single spaces and trim. -/
def collapseWs (s : List Char) : List Char :=
  joinSp (pySplit s)

/-- `text.replace('-', ' ')`. -/
def hyphenRep (s : List Char) : List Char :=
  s.map (fun c => if c = '-' then ' ' else c)

/-- The `$` anchor of `.*$` (no MULTILINE): `.*` cannot cross a newline and
`$` matches at end of string or just before a final newline.  So the tail
`rest` can be fully consumed (up to a final newline) iff it contains no
newline except possibly as its last character. -/
def anchorOk (rest : List Char) : Bool :=
  !rest.dropLast.contains '\n'

/-- Does the (leftmost, greedy) match starting here leave a trailing
newline behind?  `$` stops before a final newline. -/
def anchorResidual (rest : List Char) : List Char :=
  if rest.getLast? = some '\n' then ['\n'] else []

/-- One unit alternative of the dosage regex: the unit's characters, then
`\b`, then `.*$`. -/
def unitHere (u rest : List Char) : Bool :=
  u.isPrefixOf rest &&
    (match rest.drop u.length with
     | [] => true
     | c :: _ => !isWordC c) &&
    anchorOk (rest.drop u.length)

/-- Unit alternatives of `(mg|mcg|ml|g|units?)` in backtracking order
(`units?` tries `units` then `unit`). -/
def dosageUnits : List (List Char) :=
  [['m','g'], ['m','c','g'], ['m','l'], ['g'], ['u','n','i','t','s'], ['u','n','i','t']]

/-- Does `\d+\.?\d*\s*(mg|mcg|ml|g|units?)\b.*$` match starting at the head
of `s`?  The greedy digit/space runs are deterministic because no unit
starts with a digit, a dot or whitespace. -/
def dosageMatchHere (s : List Char) : Bool :=
  match s with
  | [] => false
  | c :: t =>
    isDigitC c &&
      (let afterInt := t.dropWhile isDigitC
       let afterFrac :=
         match afterInt with
         | '.' :: u => u.dropWhile isDigitC
         | _ => afterInt
       let rest := afterFrac.dropWhile isSpaceC
       dosageUnits.any (fun u => unitHere u rest))

/-- `re.sub(r'\d+\.?\d*\s*(mg|mcg|ml|g|units?)\b.*$', '', s)`:
delete from the leftmost match position to the end (keeping a final
newline that `$` stopped before). -/
def dosageSub : List Char → List Char
  | [] => []
  | c :: t =>
    if dosageMatchHere (c :: t) then anchorResidual (c :: t)
    else c :: dosageSub t

/-- Suffix tokens of the second regex; `tablets?`/`capsules?` expand to the
two backtracking alternatives each. -/
def suffixTokens : List (List Char) :=
  [['t','a','b','l','e','t','s'], ['t','a','b','l','e','t'],
   ['c','a','p','s','u','l','e','s'], ['c','a','p','s','u','l','e'],
   ['i','n','j','e','c','t','i','o','n'],
   ['s','u','b','c','u','t','a','n','e','o','u','s'],
   ['o','r','a','l'], ['d','a','i','l','y'],
   ['b','i','d'], ['t','i','d'], ['q','d'], ['p','r','n']]

/-- Token-plus-boundary-plus-anchor test at the start of `rest`
(which is the input with the leading whitespace run already skipped). -/
def tokenHere (rest : List Char) : Bool :=
  suffixTokens.any (fun tk =>
    tk.isPrefixOf rest &&
      (match rest.drop tk.length with
       | [] => true
       | c :: _ => !isWordC c) &&
      anchorOk (rest.drop tk.length))

/-- Does `\s+(tablets?|capsules?|injection|subcutaneous|oral|daily|bid|tid|qd|prn)\b.*$`
match starting at the head of `s`?  The token must start right at the end
of the whitespace run (no token starts with whitespace). -/
def suffixMatchHere (s : List Char) : Bool :=
  match s with
  | [] => false
  | c :: t => isSpaceC c && tokenHere (t.dropWhile isSpaceC)

/-- `re.sub` for the suffix-token regex: delete from the leftmost match to
the end (keeping a final newline that `$` stopped before). -/
def suffixSub : List Char → List Char
  | [] => []
  | c :: t =>
    if suffixMatchHere (c :: t) then anchorResidual (c :: t)
    else c :: suffixSub t

/-- `re.sub(r'\([^)]*\)', '', s)`: repeatedly remove the leftmost
`(`…`)` group containing no `)`.  Structural recursion on a fuel counter
(each step consumes at least one character, so `s.length` fuel suffices). -/
def parenSubAux : Nat → List Char → List Char
  | 0, s => s
  | _ + 1, [] => []
  | fuel + 1, c :: t =>
    if c = '(' then
      match t.dropWhile (fun d => d ≠ ')') with
      | ')' :: after => parenSubAux fuel after
      | _ => '(' :: parenSubAux fuel t
    else c :: parenSubAux fuel t

def parenSub (s : List Char) : List Char :=
  parenSubAux s.length s

/-- `MedicationMatcher.normalize_input`: lower-case; strip a trailing
dosage expression; strip trailing route/frequency/form tokens; remove
parenthetical content; collapse whitespace; replace hyphens by spaces;
collapse again; strip. -/
def normalize_input (s : List Char) : List Char :=
  stripWs (collapseWs (hyphenRep (collapseWs (parenSub (suffixSub (dosageSub (lowerStr s)))))))

/-!
`difflib.SequenceMatcher` (no junk: autojunk only applies to sequences of
200+ elements, longer than any string ever matched here).
`find_longest_match` returns the longest matching block, ties broken by
smallest start in `a`, then smallest start in `b`; `get_matching_blocks`
recurses on the pieces left and right of that block; `ratio` is
`2*M/T` with `M` the total size of the matching blocks and `T` the sum of
the lengths (`1.0` when both sequences are empty).
-/

/-- Length of the longest common prefix of two sequences. -/
def commonPrefixLen : List Char → List Char → Nat
  | a :: as, b :: bs => if a = b then commonPrefixLen as bs + 1 else 0
  | _, _ => 0

/-- All candidate blocks `(i, j, size)` where `size` is the length of the
matching run starting at `a[i:]`/`b[j:]`, in ascending `i`-then-`j` order. -/
def blockCands (a b : List Char) : List (Nat × Nat × Nat) :=
  (List.range a.length).flatMap (fun i =>
    (List.range b.length).map (fun j => (i, j, commonPrefixLen (a.drop i) (b.drop j))))

/-- `find_longest_match` over the whole of `a` and `b`: maximal size,
first (smallest `i`, then `j`) among maximal blocks; `(0,0,0)` when there
is no nonempty matching block. -/
def findLongestBlock (a b : List Char) : Nat × Nat × Nat :=
  (blockCands a b).foldl (fun best c => if best.2.2 < c.2.2 then c else best) (0, 0, 0)

/-- Total size of the matching blocks of `get_matching_blocks`:
the longest block plus, recursively, the blocks of the pieces to its left
and to its right.  Fuel-based structural recursion (`a` shrinks strictly
each round, so `a.length` fuel suffices). -/
def matchingTotalAux : Nat → List Char → List Char → Nat
  | 0, _, _ => 0
  | fuel + 1, a, b =>
    let ijk := findLongestBlock a b
    let i := ijk.1
    let j := ijk.2.1
    let k := ijk.2.2
    if k = 0 then 0
    else
      k + matchingTotalAux fuel (a.take i) (b.take j) +
        matchingTotalAux fuel (a.drop (i + k)) (b.drop (j + k))

def matchingTotal (a b : List Char) : Nat :=
  matchingTotalAux a.length a b

/-- `SequenceMatcher(None, a, b).ratio()` as a rational: `2*M/T`
(`1.0` when both sequences are empty). -/
def seqRatio (a b : List Char) : ℚ :=
  if a.length + b.length = 0 then 1
  else mkRat (2 * matchingTotal a b) (a.length + b.length)

/-!
The built-in medication table of `MedicationMatcher.__init__` and the
reverse lookup indices of `_build_lookup_indices`, in source order.
-/

structure MedRecord where
  generic : List Char
  brand : List Char
  drug_class : List Char
  aliases : List (List Char)
  common_misspellings : List (List Char)
deriving DecidableEq

def mkMed (g b dc : String) (al ms : List String) : MedRecord :=
  ⟨g.data, b.data, dc.data, al.map String.data, ms.map String.data⟩

def medication_db : List (List Char × MedRecord) := [
  (("aimovig").data, mkMed ("erenumab") ("Aimovig") ("CGRP mAbs")
    [("erenumab"), ("aimovig"), ("erenumab-aooe")]
    [("aimovag"), ("aimovig"), ("erenomab"), ("erenumob")]),
  (("emgality").data, mkMed ("galcanezumab") ("Emgality") ("CGRP mAbs")
    [("galcanezumab"), ("emgality"), ("galcanezumab-gnlm")]
    [("emgalaty"), ("galcanezumob"), ("galcanezemab")]),
  (("ajovy").data, mkMed ("fremanezumab") ("Ajovy") ("CGRP mAbs")
    [("fremanezumab"), ("ajovy"), ("fremanezumab-vfrm")]
    [("ajovey"), ("fremanezemab"), ("fremanezumob")]),
  (("vyepti").data, mkMed ("eptinezumab") ("Vyepti") ("CGRP mAbs")
    [("eptinezumab"), ("vyepti"), ("eptinezumab-jjmr")]
    [("viepti"), ("eptinezemab"), ("eptinezumob")]),
  (("nurtec").data, mkMed ("rimegepant") ("Nurtec ODT") ("Gepants")
    [("rimegepant"), ("nurtec"), ("nurtec odt"), ("nurtec-odt")]
    [("nurtac"), ("rimegapent"), ("rimegepent")]),
  (("ubrelvy").data, mkMed ("ubrogepant") ("Ubrelvy") ("Gepants")
    [("ubrogepant"), ("ubrelvy")]
    [("ubrelvey"), ("ubrogapent"), ("ubrogepent")]),
  (("qulipta").data, mkMed ("atogepant") ("Qulipta") ("Gepants (Preventive)")
    [("atogepant"), ("qulipta")]
    [("qualipta"), ("atogapent"), ("atogepent")]),
  (("reyvow").data, mkMed ("lasmiditan") ("Reyvow") ("Ditans")
    [("lasmiditan"), ("reyvow")]
    [("rayvow"), ("lasmidatan"), ("lasmiditant")]),
  (("botox").data, mkMed ("onabotulinumtoxinA") ("Botox") ("Botox")
    [("onabotulinumtoxina"), ("botox"), ("onabotulinum"), ("onabotulinumtoxin a")]
    [("botulinum"), ("onabotulinum")]),
  (("sumatriptan").data, mkMed ("sumatriptan") ("Imitrex") ("Triptan")
    [("sumatriptan"), ("imitrex"), ("sumavel"), ("zecuity")]
    [("sumatripptan"), ("sumatriptin"), ("imitrix")]),
  (("rizatriptan").data, mkMed ("rizatriptan") ("Maxalt") ("Triptan")
    [("rizatriptan"), ("maxalt"), ("maxalt-mlt")]
    [("rizatripptan"), ("rizatriptin")]),
  (("zolmitriptan").data, mkMed ("zolmitriptan") ("Zomig") ("Triptan")
    [("zolmitriptan"), ("zomig"), ("zomig-zmt")]
    [("zolmitripptan"), ("zolmitriptin")]),
  (("eletriptan").data, mkMed ("eletriptan") ("Relpax") ("Triptan")
    [("eletriptan"), ("relpax")]
    [("eletripptan"), ("eletriptin")]),
  (("naratriptan").data, mkMed ("naratriptan") ("Amerge") ("Triptan")
    [("naratriptan"), ("amerge")]
    [("naratripptan"), ("naratriptin")]),
  (("almotriptan").data, mkMed ("almotriptan") ("Axert") ("Triptan")
    [("almotriptan"), ("axert")]
    [("almotripptan"), ("almotriptin")]),
  (("frovatriptan").data, mkMed ("frovatriptan") ("Frova") ("Triptan")
    [("frovatriptan"), ("frova")]
    [("frovatripptan"), ("frovatriptin")]),
  (("propranolol").data, mkMed ("propranolol") ("Inderal") ("Beta-blocker")
    [("propranolol"), ("inderal"), ("inderal la"), ("innopran xl")]
    [("propanolol"), ("propranolal"), ("propanalol"), ("indral")]),
  (("metoprolol").data, mkMed ("metoprolol") ("Toprol-XL") ("Beta-blocker")
    [("metoprolol"), ("toprol"), ("toprol-xl"), ("lopressor")]
    [("metropolol"), ("metaprolol"), ("topral")]),
  (("timolol").data, mkMed ("timolol") ("Blocadren") ("Beta-blocker")
    [("timolol"), ("blocadren")]
    [("timelol"), ("timolal")]),
  (("atenolol").data, mkMed ("atenolol") ("Tenormin") ("Beta-blocker")
    [("atenolol"), ("tenormin")]
    [("atenalol"), ("atenolal")]),
  (("topiramate").data, mkMed ("topiramate") ("Topamax") ("Anticonvulsant")
    [("topiramate"), ("topamax"), ("trokendi xr"), ("qudexy xr")]
    [("topimax"), ("topomax"), ("topiramat"), ("topirimate"), ("topamax")]),
  (("valproate").data, mkMed ("valproate") ("Depakote") ("Anticonvulsant")
    [("valproate"), ("valproic acid"), ("divalproex"), ("depakote"), ("depakene")]
    [("valproat"), ("divalproax"), ("depakot")]),
  (("gabapentin").data, mkMed ("gabapentin") ("Neurontin") ("Anticonvulsant")
    [("gabapentin"), ("neurontin"), ("gralise")]
    [("gabapentin"), ("neurontin"), ("gabapantin")]),
  (("levetiracetam").data, mkMed ("levetiracetam") ("Keppra") ("Anticonvulsant")
    [("levetiracetam"), ("keppra")]
    [("levitiracetam"), ("keppra")]),
  (("zonisamide").data, mkMed ("zonisamide") ("Zonegran") ("Anticonvulsant")
    [("zonisamide"), ("zonegran")]
    [("zonisamid"), ("zonagran")]),
  (("amitriptyline").data, mkMed ("amitriptyline") ("Elavil") ("TCA")
    [("amitriptyline"), ("elavil")]
    [("amitryptiline"), ("amitriptylin"), ("elivil")]),
  (("nortriptyline").data, mkMed ("nortriptyline") ("Pamelor") ("TCA")
    [("nortriptyline"), ("pamelor"), ("aventyl")]
    [("nortryptiline"), ("nortriptylin")]),
  (("doxepin").data, mkMed ("doxepin") ("Silenor") ("TCA")
    [("doxepin"), ("silenor"), ("sinequan")]
    [("doxapine"), ("doxipin")]),
  (("protriptyline").data, mkMed ("protriptyline") ("Vivactil") ("TCA")
    [("protriptyline"), ("vivactil")]
    [("protryptiline"), ("protriptylin")]),
  (("venlafaxine").data, mkMed ("venlafaxine") ("Effexor") ("SNRI")
    [("venlafaxine"), ("effexor"), ("effexor xr")]
    [("venlafaxin"), ("venlefaxine"), ("effexer")]),
  (("duloxetine").data, mkMed ("duloxetine") ("Cymbalta") ("SNRI")
    [("duloxetine"), ("cymbalta")]
    [("duloxetin"), ("duloxatine"), ("cymbalta")]),
  (("verapamil").data, mkMed ("verapamil") ("Calan") ("Cluster Verapamil")
    [("verapamil"), ("calan"), ("verelan"), ("covera-hs")]
    [("verapamel"), ("verapamil"), ("calan")]),
  (("lithium").data, mkMed ("lithium") ("Lithobid") ("Cluster Lithium")
    [("lithium"), ("lithobid"), ("lithium carbonate")]
    [("litheum"), ("litium")]),
  (("oxygen").data, mkMed ("oxygen") ("Oxygen") ("Cluster Oxygen")
    [("oxygen"), ("o2"), ("high-flow oxygen")]
    []),
  (("lisinopril").data, mkMed ("lisinopril") ("Zestril") ("ACE Inhibitor")
    [("lisinopril"), ("zestril"), ("prinivil")]
    [("lisinopril"), ("lisinopral"), ("zestrel")]),
  (("candesartan").data, mkMed ("candesartan") ("Atacand") ("ARB")
    [("candesartan"), ("atacand")]
    [("candesarten"), ("atacand")])]

/-- Python dict assignment `d[k] = v`: an existing key keeps its position
and gets the new value; a new key is appended. -/
def upsert (m : List (List Char × List Char)) (k v : List Char) :
    List (List Char × List Char) :=
  match m with
  | [] => [(k, v)]
  | (k', v') :: t => if k' = k then (k, v) :: t else (k', v') :: upsert t k v

/-- `self.generic_to_key` built by `_build_lookup_indices`. -/
def generic_to_key : List (List Char × List Char) :=
  medication_db.foldl (fun m kv => upsert m (lowerStr kv.2.generic) kv.1) []

/-- `self.brand_to_key` built by `_build_lookup_indices`. -/
def brand_to_key : List (List Char × List Char) :=
  medication_db.foldl (fun m kv => upsert m (lowerStr kv.2.brand) kv.1) []

/-- `self.alias_to_key` built by `_build_lookup_indices`. -/
def alias_to_key : List (List Char × List Char) :=
  medication_db.foldl
    (fun m kv => kv.2.aliases.foldl (fun m' a => upsert m' (lowerStr a) kv.1) m) []

/-- Association-list lookup (`normalized in index` / `index[normalized]`). -/
def assocFind (m : List (List Char × List Char)) (k : List Char) : Option (List Char) :=
  match m with
  | [] => none
  | (k', v) :: t => if k' = k then some v else assocFind t k

/-- The dictionary returned by `MedicationMatcher._build_result`. -/
structure MatchResult where
  key : List Char
  generic : List Char
  brand : List Char
  drug_class : List Char
  confidence : ℚ
  match_type : List Char
  all_aliases : List (List Char)
deriving DecidableEq

/-- `MedicationMatcher._build_result` (every key passed to it exists in
`medication_db`; the fallback branch is unreachable and stands in for the
`KeyError` Python would raise). -/
def build_result (key : List Char) (confidence : ℚ) (match_type : List Char) :
    MatchResult :=
  match medication_db.find? (fun kv => kv.1 = key) with
  | some kv => ⟨key, kv.2.generic, kv.2.brand, kv.2.drug_class, confidence,
      match_type, kv.2.aliases⟩
  | none => ⟨key, [], [], [], confidence, match_type, []⟩

/-- `MedicationMatcher.fuzzy_match`: similarity of the lower-cased strings. -/
def fuzzy_match (input cand : List Char) : ℚ :=
  seqRatio (lowerStr input) (lowerStr cand)

/-- One step of the shared `best_score`/`best_match` tracking in the fuzzy
strategies of `find_medication`:
`if score > best_score and score >= threshold: update`. -/
def fuzzyStep (threshold : ℚ) (normalized : List Char)
    (acc : ℚ × Option (List Char)) (cand : List Char × List Char) :
    ℚ × Option (List Char) :=
  let score := fuzzy_match normalized cand.1
  if acc.1 < score ∧ threshold ≤ score then (score, some cand.2) else acc

/-- Strategy 2 scan: all `(alias, key)` items of `alias_to_key`, in index
order. -/
def scanAliases (threshold : ℚ) (normalized : List Char)
    (acc : ℚ × Option (List Char)) : ℚ × Option (List Char) :=
  alias_to_key.foldl (fuzzyStep threshold normalized) acc

/-- Strategy 3 scan: every `common_misspellings` entry of every record, in
table order. -/
def scanMisspellings (threshold : ℚ) (normalized : List Char)
    (acc : ℚ × Option (List Char)) : ℚ × Option (List Char) :=
  medication_db.foldl
    (fun a kv =>
      kv.2.common_misspellings.foldl
        (fun a' ms => fuzzyStep threshold normalized a' (ms, kv.1)) a) acc

/-- Strategy 4 scan: the canonical keys of `medication_db`. -/
def scanKeys (threshold : ℚ) (normalized : List Char)
    (acc : ℚ × Option (List Char)) : ℚ × Option (List Char) :=
  medication_db.foldl (fun a kv => fuzzyStep threshold normalized a (kv.1, kv.1)) acc

/-- The fuzzy part of `find_medication` (strategies 2–4).  Each strategy
is scanned in full; when a strategy has set `best_match` the result is
returned, otherwise the shared `best_score`/`best_match` state is carried
into the next strategy (Python's `best_score` carries over; it is still
`0.0` whenever `best_match` is unset, since both are updated together). -/
def fmFuzzy (threshold : ℚ) (normalized : List Char) : Option MatchResult :=
  match scanAliases threshold normalized (0, none) with
  | (s, some k) => some (build_result k s (("fuzzy_alias").data))
  | s2 =>
    match scanMisspellings threshold normalized s2 with
    | (s, some k) => some (build_result k s (("fuzzy_misspelling").data))
    | s3 =>
      match scanKeys threshold normalized s3 with
      | (s, some k) => some (build_result k s (("fuzzy_key").data))
      | _ => none

/-- `find_medication` after input normalization: exact match against the
alias, generic and brand indices in that order (confidence 1.0), falling
back to the fuzzy strategies. -/
def fmAfterNormalize (threshold : ℚ) (normalized : List Char) : Option MatchResult :=
  match assocFind alias_to_key normalized with
  | some key => some (build_result key 1 (("exact_alias").data))
  | none =>
  match assocFind generic_to_key normalized with
  | some key => some (build_result key 1 (("exact_generic").data))
  | none =>
  match assocFind brand_to_key normalized with
  | some key => some (build_result key 1 (("exact_brand").data))
  | none => fmFuzzy threshold normalized

/-- `MedicationMatcher.find_medication`: normalize, exact lookups, then
fuzzy strategies; `None` when nothing reaches the threshold. -/
def find_medication (input : List Char) (threshold : ℚ) : Option MatchResult :=
  fmAfterNormalize threshold (normalize_input input)

/-- The default `threshold=0.85`. -/
def thDefault : ℚ := mkRat 17 20

/-- The `(alias, key)` pairs of the built-in table, in registration order
(the candidate list of fuzzy strategy 2). -/
def builtinAliasPairs : List (List Char × List Char) :=
  medication_db.flatMap (fun kv => kv.2.aliases.map (fun a => (lowerStr a, kv.1)))

/-- The `(misspelling, key)` candidate list of fuzzy strategy 3, in table
order. -/
def misspellingPairs : List (List Char × List Char) :=
  medication_db.flatMap (fun kv => kv.2.common_misspellings.map (fun ms => (ms, kv.1)))

/-- The `(key, key)` candidate list of fuzzy strategy 4. -/
def keyPairs : List (List Char × List Char) :=
  medication_db.map (fun kv => (kv.1, kv.1))

/-- Spec-side selection within one fuzzy strategy, following the
specification's words: the highest-scoring candidate with score at or
above the threshold wins, ties going to the first-registered candidate. -/
def specBest (threshold : ℚ) (normalized : List Char)
    (cands : List (List Char × List Char)) : Option (List Char × ℚ) :=
  match cands.find? (fun c =>
      decide (threshold ≤ fuzzy_match normalized c.1) &&
        cands.all (fun d => decide (fuzzy_match normalized d.1 ≤ fuzzy_match normalized c.1))) with
  | some c => some (c.2, fuzzy_match normalized c.1)
  | none => none

/-- Spec-side fuzzy phase: strategies tried in order (aliases, curated
misspellings, canonical keys), each in full, `none` when no candidate in
any strategy reaches the threshold. -/
def fuzzySpec (threshold : ℚ) (normalized : List Char) : Option MatchResult :=
  match specBest threshold normalized builtinAliasPairs with
  | some ks => some (build_result ks.1 ks.2 (("fuzzy_alias").data))
  | none =>
    match specBest threshold normalized misspellingPairs with
    | some ks => some (build_result ks.1 ks.2 (("fuzzy_misspelling").data))
    | none =>
      match specBest threshold normalized keyPairs with
      | some ks => some (build_result ks.1 ks.2 (("fuzzy_key").data))
      | none => none

/-- `MedicationMatcher.search_multiple`: resolve each entry, keep the hits. -/
def search_multiple (meds : List (List Char)) (threshold : ℚ) : List MatchResult :=
  match meds with
  | [] => []
  | m :: t =>
    match find_medication m threshold with
    | some r => r :: search_multiple t threshold
    | none => search_multiple t threshold

/-!
`search_policies_with_fallback` of `src/headache_vault_demo.py`.
A policy table is a list of rows; filtering a pandas frame by a boolean
mask keeps row order, so each filter is `List.filter`.  Columns other
than `State`, `Payer_Name` and `Drug_Class` are irrelevant to the search
and carried opaquely in `rest`.
-/

structure PolicyRow where
  State : List Char
  Payer_Name : List Char
  Drug_Class : List Char
  rest : List (List Char)
deriving DecidableEq

/-- The keyword-expansion `if/elif` chain for flexible payer matching
(`payer_lower` is the lower-cased payer string). -/
def payerKeywords (payer : List Char) : List (List Char) :=
  let payer_lower := lowerStr payer
  if containsSub payer_lower (("horizon").data) then [("horizon").data]
  else if containsSub payer_lower (("aetna").data) then [("aetna").data]
  else if containsSub payer_lower (("united").data) || containsSub payer_lower (("uhc").data) then
    [("united").data, ("uhc").data]
  else if containsSub payer_lower (("cigna").data) then [("cigna").data]
  else if containsSub payer_lower (("anthem").data) || containsSub payer_lower (("elevance").data) then
    [("anthem").data, ("elevance").data]
  else if containsSub payer_lower (("bcbs").data) || containsSub payer_lower (("blue cross").data) then
    [("bcbs").data, ("blue cross").data, ("blue shield").data]
  else if containsSub payer_lower (("humana").data) then [("humana").data]
  else if containsSub payer_lower (("kaiser").data) then [("kaiser").data]
  else if containsSub payer_lower (("highmark").data) then [("highmark").data]
  else if containsSub payer_lower (("independence").data) then [("independence").data]
  else
    match pySplit payer with
    | [] => [payer_lower]
    | w :: _ => [lowerStr w]

/-- `Payer_Name.str.contains(kw, case=False)` OR-ed over the keywords
(`payer_mask`). -/
def payerMask (kws : List (List Char)) (r : PolicyRow) : Bool :=
  kws.any (fun kw => containsSub (lowerStr r.Payer_Name) kw)

/-- `db_b[db_b['State'] == state]`. -/
def stateFilter (db : List PolicyRow) (state : List Char) : List PolicyRow :=
  db.filter (fun r => r.State = state)

/-- The sentinel nationwide state. -/
def allState : List Char := ("ALL").data

/-- Python truthiness of the optional `payer`/`drug_class` arguments
(`None` and the empty string are falsy). -/
def truthy : Option (List Char) → Bool
  | none => false
  | some s => !s.isEmpty

/-- Fallback message for the national payer substitution. -/
def natPayerMsg (state payer : List Char) : List Char :=
  ("ℹ️ No ").data ++ state ++ ("-specific policy for ").data ++ payer ++
    (". Showing **national baseline** policy. State-specific rules may vary.").data

/-- Fallback message for a drug-class cascade substitution. -/
def cascadeMsg (drug_class cascade_class : List Char) : List Char :=
  ("ℹ️ No ").data ++ drug_class ++
    (" policy found. Showing **").data ++ cascade_class ++
    ("** policy (similar step therapy requirements).").data

/-- Fallback message for a national cascade substitution. -/
def natCascadeMsg (state drug_class cascade_class : List Char) : List Char :=
  ("ℹ️ No ").data ++ state ++ ("-specific ").data ++ drug_class ++
    (" policy. Showing **national ").data ++ cascade_class ++ ("** baseline.").data

/-- Default national fallback message of the drug-class stage. -/
def natDrugMsg (state drug_class : List Char) : List Char :=
  ("ℹ️ No ").data ++ state ++ ("-specific policy for ").data ++ drug_class ++
    (". Showing **national baseline** policy.").data

/-- Steps 1–3 of the search: state filter, flexible payer filter, and the
national (`ALL`) payer fallback.  Returns the working table together with
`fallback_used` and `fallback_message`. -/
def payerStage (db : List PolicyRow) (state : List Char) (payer : Option (List Char)) :
    List PolicyRow × Bool × List Char :=
  let query := stateFilter db state
  match payer with
  | some p =>
    if p.isEmpty then (query, false, []) else
    let kws := payerKeywords p
    let payer_query := query.filter (payerMask kws)
    if payer_query.isEmpty then
      let national_payer := (stateFilter db allState).filter (payerMask kws)
      if national_payer.isEmpty then
        (payer_query, false, [])
      else
        (national_payer, true, natPayerMsg state p)
    else (payer_query, false, [])
  | none => (query, false, [])

/-- The hard-coded cascade groups for preventive gepants. -/
def cascadeClasses (drug_class : List Char) : List (List Char) :=
  if drug_class = ("Gepants (Preventive)").data then
    [("Qulipta").data, ("CGRP mAbs").data]
  else if drug_class = ("Qulipta").data then
    [("Gepants (Preventive)").data, ("CGRP mAbs").data]
  else []

/-- `query[query['Drug_Class'] == dc]`. -/
def drugFilter (rows : List PolicyRow) (dc : List Char) : List PolicyRow :=
  rows.filter (fun r => r.Drug_Class = dc)

/-- The `for cascade_class in cascade_classes: ... break` loop: first
cascade member with a nonempty filter over the working table. -/
def tryCascade (rows : List PolicyRow) : List (List Char) → Option (List Char × List PolicyRow)
  | [] => none
  | c :: cs =>
    let q := drugFilter rows c
    if q.isEmpty then tryCascade rows cs else some (c, q)

/-- Steps 4–6: the drug-class filter with cascade fallback and the
national drug-class fallback (`'payer_keywords' in dir()` holds exactly
when a truthy payer was given). -/
def drugStage (db : List PolicyRow) (state : List Char) (payer : Option (List Char))
    (drug_class : List Char) (st : List PolicyRow × Bool × List Char) :
    List PolicyRow × Bool × List Char :=
  let query := st.1
  let fb := st.2.1
  let msg := st.2.2
  let drug_query := drugFilter query drug_class
  if drug_query.isEmpty then
    let cascade := cascadeClasses drug_class
    match tryCascade query cascade with
    | some cq => (cq.2, true, cascadeMsg drug_class cq.1)
    | none =>
      if !fb then
        let national_query :=
          if truthy payer then
            (stateFilter db allState).filter (payerMask (payerKeywords (payer.getD [])))
          else stateFilter db allState
        let national_drug := drugFilter national_query drug_class
        if national_drug.isEmpty then
          match tryCascade national_query cascade with
          | some cq => (cq.2, true, natCascadeMsg state drug_class cq.1)
          | none => (drug_query, fb, msg)
        else (national_drug, true, natDrugMsg state drug_class)
      else (drug_query, fb, msg)
  else (drug_query, fb, msg)

/-- `search_policies_with_fallback(db_b, state, payer, drug_class)`. -/
def search_policies_with_fallback (db : List PolicyRow) (state : List Char)
    (payer : Option (List Char)) (drug_class : Option (List Char)) :
    List PolicyRow × Bool × List Char :=
  let st := payerStage db state payer
  match drug_class with
  | some dc => if dc.isEmpty then st else drugStage db state payer dc st
  | none => st

/-!
`check_criteria_met(step_requirements, prior_medications, diagnosis)`:
the step-therapy criteria evaluator.  `diagnosis` is accepted but unused,
exactly as in the source.  A criterion is a
`(requirement, met_status, details)` tuple.
-/

/-- Python `str.title()` (ASCII): a letter is upper-cased when the
previous character is not a letter, lower-cased otherwise. -/
def pyTitleAux : Bool → List Char → List Char
  | _, [] => []
  | prevAlpha, c :: t =>
    (if isAlphaC c then (if prevAlpha then lowerC c else upperC c) else c) ::
      pyTitleAux (isAlphaC c) t

def pyTitle (s : List Char) : List Char :=
  pyTitleAux false s

/-- `s.split(sep)[0]`: the portion before the first occurrence of `sep`
(the whole string when `sep` does not occur). -/
def splitHead (sep : List Char) : List Char → List Char
  | [] => []
  | c :: t => if sep.isPrefixOf (c :: t) then [] else c :: splitHead sep t

/-- `', '.join(ws)`. -/
def joinComma (ws : List (List Char)) : List Char :=
  match ws with
  | [] => []
  | [w] => w
  | w :: rest => w ++ (", ").data ++ joinComma rest

def beta_blockers : List (List Char) :=
  [("propranolol").data, ("metoprolol").data, ("atenolol").data, ("nadolol").data,
   ("timolol").data]

def anticonvulsants : List (List Char) :=
  [("topiramate").data, ("topamax").data, ("valproate").data, ("depakote").data,
   ("divalproex").data, ("gabapentin").data]

def antidepressants : List (List Char) :=
  [("amitriptyline").data, ("nortriptyline").data, ("venlafaxine").data,
   ("duloxetine").data, ("effexor").data, ("cymbalta").data]

def ccbs : List (List Char) :=
  [("verapamil").data, ("flunarizine").data]

def triptans : List (List Char) :=
  [("sumatriptan").data, ("rizatriptan").data, ("eletriptan").data,
   ("zolmitriptan").data, ("naratriptan").data, ("frovatriptan").data,
   ("almotriptan").data]

/-- `any(kw in med for kw in kws)`. -/
def medMatches (kws : List (List Char)) (med : List Char) : Bool :=
  kws.any (fun k => containsSub med k)

/-- `[m.split(' (')[0] for m in meds_found]`. -/
def foundHeads (found : List (List Char)) : List (List Char) :=
  found.map (splitHead ((" (").data))

/-- One iteration of the oral-preventive classification loop: the
`if/elif` chain over beta-blockers, anticonvulsants, antidepressants and
CCBs, counting a class only when it is not already represented in
`meds_found`. -/
def classifyStep (acc : Nat × List (List Char)) (med : List Char) :
    Nat × List (List Char) :=
  if medMatches beta_blockers med ∧ (("Beta-blocker").data ∉ foundHeads acc.2) then
    (acc.1 + 1, acc.2 ++ [(("Beta-blocker (").data ++ pyTitle med ++ (")").data)])
  else if medMatches anticonvulsants med ∧ (("Anticonvulsant").data ∉ foundHeads acc.2) then
    (acc.1 + 1, acc.2 ++ [(("Anticonvulsant (").data ++ pyTitle med ++ (")").data)])
  else if medMatches antidepressants med ∧ (("Antidepressant").data ∉ foundHeads acc.2) then
    (acc.1 + 1, acc.2 ++ [(("Antidepressant (").data ++ pyTitle med ++ (")").data)])
  else if medMatches ccbs med ∧ (("CCB").data ∉ foundHeads acc.2) then
    (acc.1 + 1, acc.2 ++ [(("CCB (").data ++ pyTitle med ++ (")").data)])
  else acc

/-- Detection of the oral-preventive rule family in the requirement text. -/
def oralCond (req : List Char) : Bool :=
  containsSub req (("2 oral preventive").data) ||
    (containsSub req (("2").data) && containsSub req (("preventive").data)) ||
    containsSub req (("conventional oral").data)

def oralLabel : List Char := ("≥2 oral preventive classes").data

/-- The oral-preventive branch of `check_criteria_met`. -/
def oralPart (req : List Char) (meds : List (List Char)) :
    List (List Char × Bool × List Char) :=
  if oralCond req then
    let ct := meds.foldl classifyStep (0, [])
    if 2 ≤ ct.1 then [(oralLabel, true, joinComma (ct.2.take 3))]
    else if ct.1 = 1 then
      [(oralLabel, false, ("Only 1 class: ").data ++ ct.2.headD [])]
    else [(oralLabel, false, ("No oral preventives documented").data)]
  else []

/-- One iteration of the triptan-collection loop (a single medication can
contribute several distinct triptans). -/
def triptanStep (tried : List (List Char)) (med : List Char) : List (List Char) :=
  triptans.foldl
    (fun tr t => if containsSub med t ∧ (pyTitle t ∉ tr) then tr ++ [pyTitle t] else tr)
    tried

def triptanLabel : List Char := ("≥2 triptans tried").data

/-- The triptan branch of `check_criteria_met`. -/
def triptanPart (req : List Char) (meds : List (List Char)) :
    List (List Char × Bool × List Char) :=
  if containsSub req (("triptan").data) then
    let tried := meds.foldl triptanStep []
    if containsSub req (("2").data) && containsSub req (("triptan").data) then
      if 2 ≤ tried.length then [(triptanLabel, true, joinComma (tried.take 2))]
      else if tried.length = 1 then
        [(triptanLabel, false, ("Only 1: ").data ++ tried.headD [])]
      else [(triptanLabel, false, ("No triptans documented").data)]
    else []
  else []

def orLabel : List Char := ("Verapamil OR lithium failure").data

def andLabel : List Char := ("Verapamil AND lithium failure").data

/-- The body of the verapamil/lithium branch of `check_criteria_met`,
with the two locals `verapamil_tried`/`lithium_tried` as parameters. -/
def vlTuple (req : List Char) (vT lT : Bool) : List (List Char × Bool × List Char) :=
  if containsSub req ((" or ").data) then
    if vT || lT then
      [(orLabel, true,
        (if vT then ("Verapamil").data else ("Lithium").data) ++ (" trial documented").data)]
    else [(orLabel, false, ("Neither documented").data)]
  else if containsSub req ((" and ").data) then
    if vT && lT then [(andLabel, true, ("Both documented").data)]
    else
      [(andLabel, false,
        ("Missing: ").data ++
          joinComma ((if vT then [] else [("verapamil").data]) ++
            (if lT then [] else [("lithium").data])))]
  else []

/-- The verapamil/lithium branch of `check_criteria_met`. -/
def vlPart (req : List Char) (meds : List (List Char)) :
    List (List Char × Bool × List Char) :=
  if containsSub req (("verapamil").data) || containsSub req (("lithium").data) then
    vlTuple req (meds.any (fun m => containsSub m (("verapamil").data)))
      (meds.any (fun m => containsSub m (("lithium").data)))
  else []

/-- `check_criteria_met`: lower-case the requirement text and the prior
medications, then check the three rule families in order. -/
def check_criteria_met (step_requirements : List Char)
    (prior_medications : List (List Char)) (_diagnosis : List Char) :
    List (List Char × Bool × List Char) :=
  oralPart (lowerStr step_requirements) (prior_medications.map lowerStr) ++
    triptanPart (lowerStr step_requirements) (prior_medications.map lowerStr) ++
    vlPart (lowerStr step_requirements) (prior_medications.map lowerStr)

/-! Analysis-side definitions used by the theorems below. -/

/-- The input restriction under which normalization is idempotent:
no digits (dosage-stage cuts can expose new dosage matches), no hyphens
(hyphen replacement creates new whitespace), no `(` (parenthetical removal
can join text), and no newline (the `$` anchor treats it specially). -/
def cleanInput (x : List Char) : Prop :=
  ∀ c ∈ x, isDigitC c = false ∧ c ≠ '-' ∧ c ≠ '(' ∧ c ≠ '\n'

/-- Does the suffix-token regex match at some position of `s`? -/
def hasSuffixMatch : List Char → Bool
  | [] => false
  | c :: t => suffixMatchHere (c :: t) || hasSuffixMatch t

/-- Word-level form of the token test: a suffix token is a prefix of `w`
and ends at a word boundary inside `w` or at its end (the `$`-anchor part
is dropped; it always holds on newline-free text). -/
def wordTok (w : List Char) : Bool :=
  suffixTokens.any (fun tk =>
    tk.isPrefixOf w &&
      (match w.drop tk.length with
       | [] => true
       | c :: _ => !isWordC c))

def c4row : PolicyRow :=
  ⟨("ALL").data, ("Aetna").data, ("CGRP mAbs").data, []⟩

def c5row : PolicyRow :=
  ⟨("NJ").data, ("Horizon BCBS").data, ("Qulipta").data, []⟩

def c10row : PolicyRow :=
  ⟨("ALL").data, ("Cigna").data, ("Botox").data, []⟩

/-! Basic facts about the substring test. -/

theorem containsSub_iff (hay needle : List Char) :
    containsSub hay needle = true ↔ needle <:+: hay := by
  induction hay with
  | nil =>
    rw [containsSub]
    simp [List.isPrefixOf_iff_prefix, List.infix_nil, List.prefix_nil]
  | cons c t ih =>
    rw [containsSub]
    simp only [Bool.or_eq_true, List.isPrefixOf_iff_prefix, ih, List.infix_cons_iff]

theorem containsSub_trans {s m n : List Char} (h1 : containsSub s m = true)
    (h2 : containsSub m n = true) : containsSub s n = true := by
  rw [containsSub_iff] at h1 h2 ⊢
  exact h2.trans h1

/-- C9: `search_multiple` resolves each entry independently, omits the
entries that fail to resolve, and keeps the successful resolutions in
input order. -/
theorem search_multiple_eq_filterMap (meds : List (List Char)) (t : ℚ) :
    search_multiple meds t = meds.filterMap (fun m => find_medication m t) := by
  induction meds with
  | nil => rfl
  | cons m rest ih =>
    rw [search_multiple, List.filterMap_cons]
    cases find_medication m t with
    | none => exact ih
    | some r => rw [ih]

/-- C6: the oral-preventive rule counts distinct therapeutic classes, not
distinct drugs: topiramate (anticonvulsant) plus propranolol
(beta-blocker) meet the `≥2 oral preventive classes` requirement, while
topiramate plus gabapentin (both anticonvulsants) do not. -/
theorem oral_preventive_counts_classes :
    check_criteria_met (("Requires ≥2 oral preventive classes").data)
        [("topiramate 100mg").data, ("propranolol 80mg").data] [] =
      [(oralLabel, true,
        ("Anticonvulsant (Topiramate 100Mg), Beta-blocker (Propranolol 80Mg)").data)] ∧
    check_criteria_met (("Requires ≥2 oral preventive classes").data)
        [("topiramate 100mg").data, ("gabapentin 300mg").data] [] =
      [(oralLabel, false, ("Only 1 class: Anticonvulsant (Topiramate 100Mg)").data)] :=
  ⟨by decide, by decide⟩

/-- C7, counterexample: a requirement text that contains the phrase
`verapamil and lithium` but also contains `" or "` elsewhere is evaluated
as a disjunction — with only verapamil documented (no lithium) the
criterion comes back met, contradicting the claimed pure conjunction. -/
theorem vl_conjunction_counterexample :
    containsSub (lowerStr (("verapamil and lithium failure required, or oxygen").data))
        (("verapamil and lithium").data) = true ∧
    ([("verapamil 240mg").data].map lowerStr).any
        (fun m => containsSub m (("lithium").data)) = false ∧
    check_criteria_met (("verapamil and lithium failure required, or oxygen").data)
        [("verapamil 240mg").data] [] =
      [(orLabel, true, ("Verapamil trial documented").data)] :=
  ⟨by decide, by decide, by decide⟩

/-- C7, amended: for requirement text containing `verapamil or lithium`
the criterion is a pure disjunction, with the evidence naming the found
medication (lithium only, when only lithium appears); for text containing
`verapamil and lithium` *and no `" or "` anywhere* it is a pure
conjunction whose failure evidence names each missing medication. -/
theorem vl_rule_families (req : List Char) (meds : List (List Char)) :
    (containsSub req (("verapamil or lithium").data) = true →
      (∃ ev, vlPart req meds =
        [(orLabel,
          (meds.any (fun m => containsSub m (("verapamil").data)) ||
            meds.any (fun m => containsSub m (("lithium").data))), ev)]) ∧
      (meds.any (fun m => containsSub m (("verapamil").data)) = false →
        meds.any (fun m => containsSub m (("lithium").data)) = true →
          vlPart req meds = [(orLabel, true, ("Lithium trial documented").data)])) ∧
    (containsSub req (("verapamil and lithium").data) = true →
      containsSub req ((" or ").data) = false →
      (∃ ev, vlPart req meds =
        [(andLabel,
          (meds.any (fun m => containsSub m (("verapamil").data)) &&
            meds.any (fun m => containsSub m (("lithium").data))), ev)]) ∧
      ((meds.any (fun m => containsSub m (("verapamil").data)) = false ∨
          meds.any (fun m => containsSub m (("lithium").data)) = false) →
        ∃ ev, vlPart req meds = [(andLabel, false, ev)] ∧
          (meds.any (fun m => containsSub m (("verapamil").data)) = false →
            containsSub ev (("verapamil").data) = true) ∧
          (meds.any (fun m => containsSub m (("lithium").data)) = false →
            containsSub ev (("lithium").data) = true))) := by
  constructor
  · intro h
    have hv : containsSub req (("verapamil").data) = true :=
      containsSub_trans h (by decide)
    have ho : containsSub req ((" or ").data) = true :=
      containsSub_trans h (by decide)
    cases hvT : meds.any (fun m => containsSub m (("verapamil").data)) with
    | true =>
      refine ⟨⟨("Verapamil trial documented").data, ?_⟩, ?_⟩
      · simp [vlPart, vlTuple, hv, ho, hvT]
      · intro hf; exact Bool.noConfusion hf
    | false =>
      cases hlT : meds.any (fun m => containsSub m (("lithium").data)) with
      | true =>
        refine ⟨⟨("Lithium trial documented").data, ?_⟩, ?_⟩
        · simp [vlPart, vlTuple, hv, ho, hvT, hlT]
        · intro _ _; simp [vlPart, vlTuple, hv, ho, hvT, hlT]
      | false =>
        refine ⟨⟨("Neither documented").data, ?_⟩, ?_⟩
        · simp [vlPart, vlTuple, hv, ho, hvT, hlT]
        · intro _ hc; exact Bool.noConfusion hc
  · intro h hno
    have hv : containsSub req (("verapamil").data) = true :=
      containsSub_trans h (by decide)
    have ha : containsSub req ((" and ").data) = true :=
      containsSub_trans h (by decide)
    cases hvT : meds.any (fun m => containsSub m (("verapamil").data)) with
    | true =>
      cases hlT : meds.any (fun m => containsSub m (("lithium").data)) with
      | true =>
        refine ⟨⟨("Both documented").data, ?_⟩, ?_⟩
        · simp [vlPart, vlTuple, hv, hno, ha, hvT, hlT]
        · intro hc; rcases hc with hc | hc <;> exact Bool.noConfusion hc
      | false =>
        refine ⟨⟨("Missing: lithium").data, ?_⟩, ?_⟩
        · simp [vlPart, vlTuple, hv, hno, ha, hvT, hlT, joinComma]
        · intro _
          refine ⟨("Missing: lithium").data, ?_, ?_, ?_⟩
          · simp [vlPart, vlTuple, hv, hno, ha, hvT, hlT, joinComma]
          · intro hf; exact Bool.noConfusion hf
          · intro _; decide
    | false =>
      cases hlT : meds.any (fun m => containsSub m (("lithium").data)) with
      | true =>
        refine ⟨⟨("Missing: verapamil").data, ?_⟩, ?_⟩
        · simp [vlPart, vlTuple, hv, hno, ha, hvT, hlT, joinComma]
        · intro _
          refine ⟨("Missing: verapamil").data, ?_, ?_, ?_⟩
          · simp [vlPart, vlTuple, hv, hno, ha, hvT, hlT, joinComma]
          · intro _; decide
          · intro hf; exact Bool.noConfusion hf
      | false =>
        refine ⟨⟨("Missing: verapamil, lithium").data, ?_⟩, ?_⟩
        · simp [vlPart, vlTuple, hv, hno, ha, hvT, hlT, joinComma]
        · intro _
          refine ⟨("Missing: verapamil, lithium").data, ?_, ?_, ?_⟩
          · simp [vlPart, vlTuple, hv, hno, ha, hvT, hlT, joinComma]
          · intro _; decide
          · intro _; decide

/-- Witness for the amended C7 theorem at the spec's concrete scenario. -/
theorem vl_rule_families_witness :
    vlPart (("verapamil or lithium failure").data) [("lithium 300mg").data] =
      [(orLabel, true, ("Lithium trial documented").data)] :=
  ((vl_rule_families (("verapamil or lithium failure").data)
    [("lithium 300mg").data]).1 (by decide)).2 (by decide) (by decide)

theorem oralPart_length (req : List Char) (meds : List (List Char)) :
    (oralPart req meds).length = if oralCond req then 1 else 0 := by
  cases hc : oralCond req with
  | false => simp [oralPart, hc]
  | true =>
    simp only [oralPart, hc, if_true]
    split
    · rfl
    · split <;> rfl

theorem triptanPart_length (req : List Char) (meds : List (List Char)) :
    (triptanPart req meds).length =
      if containsSub req (("triptan").data) && containsSub req (("2").data) then 1
      else 0 := by
  cases ht : containsSub req (("triptan").data) with
  | false => simp [triptanPart, ht]
  | true =>
    cases h2 : containsSub req (("2").data) with
    | false => simp [triptanPart, ht, h2]
    | true =>
      simp only [triptanPart, ht, h2, if_true, Bool.and_self, Bool.and_true, if_pos]
      split
      · rfl
      · split <;> rfl

theorem vlTuple_length (req : List Char) (vT lT : Bool) :
    (vlTuple req vT lT).length =
      if containsSub req ((" or ").data) || containsSub req ((" and ").data) then 1
      else 0 := by
  cases ho : containsSub req ((" or ").data) with
  | true =>
    simp only [vlTuple, ho, if_true, Bool.true_or, if_pos]
    split <;> rfl
  | false =>
    cases ha : containsSub req ((" and ").data) with
    | false => simp [vlTuple, ho, ha]
    | true =>
      simp only [vlTuple, ho, ha, Bool.false_or, if_true, Bool.false_eq_true, if_false]
      split <;> rfl

theorem vlPart_length (req : List Char) (meds : List (List Char)) :
    (vlPart req meds).length =
      if (containsSub req (("verapamil").data) || containsSub req (("lithium").data)) &&
          (containsSub req ((" or ").data) || containsSub req ((" and ").data)) then 1
      else 0 := by
  cases hk : containsSub req (("verapamil").data) || containsSub req (("lithium").data) with
  | false => simp [vlPart, hk]
  | true => simp [vlPart, hk, vlTuple_length]

/-- C8: the evaluator returns the rule-family tuples in the fixed order
oral-preventive, triptan, verapamil/lithium, exactly one tuple per rule
family whose recognition condition holds in the requirement text, and the
empty list (it is a total function) when no family is recognized. -/
theorem check_criteria_shape (req : List Char) (meds : List (List Char)) (diag : List Char) :
    check_criteria_met req meds diag =
      oralPart (lowerStr req) (meds.map lowerStr) ++
        triptanPart (lowerStr req) (meds.map lowerStr) ++
        vlPart (lowerStr req) (meds.map lowerStr) ∧
    (oralPart (lowerStr req) (meds.map lowerStr)).length
        = (if oralCond (lowerStr req) then 1 else 0) ∧
    (triptanPart (lowerStr req) (meds.map lowerStr)).length
        = (if containsSub (lowerStr req) (("triptan").data) &&
              containsSub (lowerStr req) (("2").data) then 1 else 0) ∧
    (vlPart (lowerStr req) (meds.map lowerStr)).length
        = (if (containsSub (lowerStr req) (("verapamil").data) ||
                containsSub (lowerStr req) (("lithium").data)) &&
              (containsSub (lowerStr req) ((" or ").data) ||
                containsSub (lowerStr req) ((" and ").data)) then 1 else 0) ∧
    (oralCond (lowerStr req) = false →
      containsSub (lowerStr req) (("triptan").data) = false →
      (containsSub (lowerStr req) (("verapamil").data) ||
        containsSub (lowerStr req) (("lithium").data)) = false →
      check_criteria_met req meds diag = []) := by
  refine ⟨rfl, oralPart_length _ _, triptanPart_length _ _, vlPart_length _ _, ?_⟩
  intro h1 h2 h3
  have e1 : oralPart (lowerStr req) (meds.map lowerStr) = [] := by
    simp [oralPart, h1]
  have e2 : triptanPart (lowerStr req) (meds.map lowerStr) = [] := by
    simp [triptanPart, h2]
  have e3 : vlPart (lowerStr req) (meds.map lowerStr) = [] := by
    simp [vlPart, h3]
  rw [check_criteria_met, e1, e2, e3]
  rfl

/-- Witness for C8 at a requirement text with no recognized rule family. -/
theorem check_criteria_shape_witness :
    check_criteria_met (("Specialist consultation required").data)
        [("topiramate 100mg").data] [] = [] :=
  (check_criteria_shape (("Specialist consultation required").data)
    [("topiramate 100mg").data] []).2.2.2.2 (by decide) (by decide) (by decide)

/-- Splitting a fold at position `n`, used to evaluate long candidate
scans in small pieces. -/
theorem foldl_chunk {α β : Type} (f : α → β → α) (i : α) (l : List β) (n : Nat) :
    l.foldl f i = (l.drop n).foldl f ((l.take n).foldl f i) := by
  conv_lhs => rw [← List.take_append_drop n l]
  rw [List.foldl_append]

/-- Strategy-2 scan evaluated on the normalization of `"erenumab-aooe"`:
the best alias is `erenumab-aooe` itself at similarity `24/26 = 12/13`. -/
theorem scanAliases_ereaooe :
    scanAliases thDefault (("erenumab aooe").data) (0, none)
      = (mkRat 12 13, some (("aimovig").data)) := by
  unfold scanAliases
  rw [foldl_chunk _ _ _ 15,
    show (alias_to_key.take 15).foldl (fuzzyStep thDefault (("erenumab aooe").data)) (0, none)
      = (mkRat 12 13, some (("aimovig").data)) from by decide]
  rw [foldl_chunk _ _ _ 15,
    show ((alias_to_key.drop 15).take 15).foldl (fuzzyStep thDefault (("erenumab aooe").data))
        (mkRat 12 13, some (("aimovig").data))
      = (mkRat 12 13, some (("aimovig").data)) from by decide]
  rw [foldl_chunk _ _ _ 15,
    show (((alias_to_key.drop 15).drop 15).take 15).foldl
        (fuzzyStep thDefault (("erenumab aooe").data))
        (mkRat 12 13, some (("aimovig").data))
      = (mkRat 12 13, some (("aimovig").data)) from by decide]
  rw [foldl_chunk _ _ _ 15,
    show ((((alias_to_key.drop 15).drop 15).drop 15).take 15).foldl
        (fuzzyStep thDefault (("erenumab aooe").data))
        (mkRat 12 13, some (("aimovig").data))
      = (mkRat 12 13, some (("aimovig").data)) from by decide]
  rw [foldl_chunk _ _ _ 15,
    show (((((alias_to_key.drop 15).drop 15).drop 15).drop 15).take 15).foldl
        (fuzzyStep thDefault (("erenumab aooe").data))
        (mkRat 12 13, some (("aimovig").data))
      = (mkRat 12 13, some (("aimovig").data)) from by decide]
  rw [foldl_chunk _ _ _ 15,
    show ((((((alias_to_key.drop 15).drop 15).drop 15).drop 15).drop 15).take 15).foldl
        (fuzzyStep thDefault (("erenumab aooe").data))
        (mkRat 12 13, some (("aimovig").data))
      = (mkRat 12 13, some (("aimovig").data)) from by decide]
  decide

/-- `find_medication("erenumab-aooe")` at the default threshold: the
hyphen is normalized away, the exact indices miss, and the fuzzy alias
strategy wins with confidence `12/13 < 1`. -/
theorem find_medication_ereaooe :
    find_medication (("erenumab-aooe").data) thDefault
      = some (build_result (("aimovig").data) (mkRat 12 13) (("fuzzy_alias").data)) := by
  unfold find_medication
  rw [show normalize_input (("erenumab-aooe").data) = ("erenumab aooe").data from by decide]
  unfold fmAfterNormalize fmFuzzy
  rw [show assocFind alias_to_key (("erenumab aooe").data) = none from by decide]
  rw [show assocFind generic_to_key (("erenumab aooe").data) = none from by decide]
  rw [show assocFind brand_to_key (("erenumab aooe").data) = none from by decide]
  rw [scanAliases_ereaooe]

/-! Policy-search theorems (C4, C5, C10). -/

theorem mem_stateFilter {db : List PolicyRow} {s : List Char} {r : PolicyRow}
    (h : r ∈ stateFilter db s) : r ∈ db ∧ r.State = s := by
  rw [stateFilter, List.mem_filter] at h
  exact ⟨h.1, of_decide_eq_true h.2⟩

theorem mem_of_mem_filter {l : List PolicyRow} {p : PolicyRow → Bool} {r : PolicyRow}
    (h : r ∈ l.filter p) : r ∈ l :=
  (List.mem_filter.mp h).1

theorem tryCascade_mem {rows : List PolicyRow} {cs : List (List Char)}
    {cq : List Char × List PolicyRow} (h : tryCascade rows cs = some cq) :
    ∀ r ∈ cq.2, r ∈ rows := by
  induction cs with
  | nil => exact absurd h (by simp [tryCascade])
  | cons c rest ih =>
    rw [tryCascade] at h
    by_cases he : (drugFilter rows c).isEmpty
    · rw [if_pos he] at h
      exact ih h
    · rw [if_neg he] at h
      cases h
      intro r hr
      exact mem_of_mem_filter hr

theorem payerStage_mem (db : List PolicyRow) (state : List Char)
    (payer : Option (List Char)) :
    ∀ r ∈ (payerStage db state payer).1,
      r ∈ db ∧ (r.State = state ∨ r.State = allState) := by
  intro r hr
  cases payer with
  | none =>
    simp only [payerStage] at hr
    have h := mem_stateFilter hr
    exact ⟨h.1, Or.inl h.2⟩
  | some p =>
    simp only [payerStage] at hr
    by_cases hp : p.isEmpty
    · simp only [hp, if_true] at hr
      have h := mem_stateFilter hr
      exact ⟨h.1, Or.inl h.2⟩
    · simp only [hp, Bool.false_eq_true, if_false] at hr
      by_cases h1 : ((stateFilter db state).filter (payerMask (payerKeywords p))).isEmpty
      · simp only [h1, if_true] at hr
        by_cases h2 : ((stateFilter db allState).filter (payerMask (payerKeywords p))).isEmpty
        · simp only [h2, if_true] at hr
          have h := mem_stateFilter (mem_of_mem_filter hr)
          exact ⟨h.1, Or.inl h.2⟩
        · simp only [h2, Bool.false_eq_true, if_false] at hr
          have h := mem_stateFilter (mem_of_mem_filter hr)
          exact ⟨h.1, Or.inr h.2⟩
      · simp only [h1, Bool.false_eq_true, if_false] at hr
        have h := mem_stateFilter (mem_of_mem_filter hr)
        exact ⟨h.1, Or.inl h.2⟩

theorem drugStage_mem (db : List PolicyRow) (state : List Char)
    (payer : Option (List Char)) (dc : List Char)
    (st : List PolicyRow × Bool × List Char)
    (hst : ∀ r ∈ st.1, r ∈ db ∧ (r.State = state ∨ r.State = allState)) :
    ∀ r ∈ (drugStage db state payer dc st).1,
      r ∈ db ∧ (r.State = state ∨ r.State = allState) := by
  intro r hr
  simp only [drugStage] at hr
  by_cases h1 : (drugFilter st.1 dc).isEmpty
  · simp only [h1, if_true] at hr
    cases hc : tryCascade st.1 (cascadeClasses dc) with
    | some cq =>
      simp only [hc] at hr
      exact hst r (tryCascade_mem hc r hr)
    | none =>
      simp only [hc] at hr
      by_cases h2 : st.2.1
      · simp only [h2, Bool.not_true, Bool.false_eq_true, if_false] at hr
        exact hst r (mem_of_mem_filter hr)
      · simp only [h2, Bool.not_false, if_true] at hr
        by_cases h3 : (drugFilter (if truthy payer = true then
            (stateFilter db allState).filter (payerMask (payerKeywords (payer.getD [])))
            else stateFilter db allState) dc).isEmpty
        · simp only [h3, if_true] at hr
          cases hc2 : tryCascade (if truthy payer = true then
              (stateFilter db allState).filter (payerMask (payerKeywords (payer.getD [])))
              else stateFilter db allState) (cascadeClasses dc) with
          | some cq =>
            simp only [hc2] at hr
            have hrows := tryCascade_mem hc2 r hr
            by_cases ht : truthy payer
            · rw [if_pos ht] at hrows
              have h := mem_stateFilter (mem_of_mem_filter hrows)
              exact ⟨h.1, Or.inr h.2⟩
            · rw [if_neg ht] at hrows
              have h := mem_stateFilter hrows
              exact ⟨h.1, Or.inr h.2⟩
          | none =>
            simp only [hc2] at hr
            exact hst r (mem_of_mem_filter hr)
        · simp only [h3, Bool.false_eq_true, if_false] at hr
          have hrows := mem_of_mem_filter hr
          by_cases ht : truthy payer
          · rw [if_pos ht] at hrows
            have h := mem_stateFilter (mem_of_mem_filter hrows)
            exact ⟨h.1, Or.inr h.2⟩
          · rw [if_neg ht] at hrows
            have h := mem_stateFilter hrows
            exact ⟨h.1, Or.inr h.2⟩
  · simp only [h1, Bool.false_eq_true, if_false] at hr
    exact hst r (mem_of_mem_filter hr)

/-- C10: every row returned by the search is a row of the input table,
and its `State` is either the requested state or the sentinel `ALL`;
rows of other states are never returned. -/
theorem search_rows_from_table (db : List PolicyRow) (state : List Char)
    (payer : Option (List Char)) (dc : Option (List Char)) :
    ∀ r ∈ (search_policies_with_fallback db state payer dc).1,
      r ∈ db ∧ (r.State = state ∨ r.State = allState) := by
  intro r hr
  cases dc with
  | none =>
    simp only [search_policies_with_fallback] at hr
    exact payerStage_mem db state payer r hr
  | some d =>
    simp only [search_policies_with_fallback] at hr
    by_cases hd : d.isEmpty
    · simp only [hd, if_true] at hr
      exact payerStage_mem db state payer r hr
    · simp only [hd, Bool.false_eq_true, if_false] at hr
      exact drugStage_mem db state payer d _ (payerStage_mem db state payer) r hr

/-- Witness for C10 at a concrete one-row table. -/
theorem search_rows_from_table_witness :
    c10row ∈ [c10row] ∧ (c10row.State = ("NY").data ∨ c10row.State = allState) :=
  search_rows_from_table [c10row] (("NY").data) (some (("Cigna").data)) none c10row
    (by decide)

theorem containsSub_append_right (s t n : List Char)
    (h : containsSub t n = true) : containsSub (s ++ t) n = true := by
  rw [containsSub_iff] at h ⊢
  rcases h with ⟨u, v, huv⟩
  exact ⟨s ++ u, v, by rw [← huv]; simp⟩

/-- C4: when a payer is given, the state-plus-payer filter is empty and
the nationwide (`ALL`) retry is nonempty, the search returns the
nationwide rows (drug-class filtered), `fallback_used = true`, and a
reason referencing the national baseline. -/
theorem national_payer_fallback (db : List PolicyRow) (state p dc : List Char)
    (hp : p.isEmpty = false)
    (hdc : dc.isEmpty = false)
    (h1 : ((stateFilter db state).filter (payerMask (payerKeywords p))).isEmpty = true)
    (h2 : ((stateFilter db allState).filter (payerMask (payerKeywords p))).isEmpty = false)
    (h3 : (drugFilter ((stateFilter db allState).filter (payerMask (payerKeywords p))) dc).isEmpty
        = false) :
    search_policies_with_fallback db state (some p) (some dc) =
      (drugFilter ((stateFilter db allState).filter (payerMask (payerKeywords p))) dc,
        true, natPayerMsg state p) ∧
    containsSub (natPayerMsg state p) (("national baseline").data) = true := by
  constructor
  · have hps : payerStage db state (some p) =
        ((stateFilter db allState).filter (payerMask (payerKeywords p)),
          true, natPayerMsg state p) := by
      simp only [payerStage, hp, Bool.false_eq_true, if_false, h1, if_true, h2]
    simp only [search_policies_with_fallback, hdc, Bool.false_eq_true, if_false, hps,
      drugStage, h3]
  · unfold natPayerMsg
    apply containsSub_append_right
    decide

/-- Witness for C4: the spec's Aetna scenario. -/
theorem national_payer_fallback_witness :
    search_policies_with_fallback [c4row] (("PA").data)
        (some (("Aetna").data)) (some (("CGRP mAbs").data)) =
      ([c4row], true, natPayerMsg (("PA").data) (("Aetna").data)) :=
  ((national_payer_fallback [c4row] (("PA").data) (("Aetna").data) (("CGRP mAbs").data)
      (by decide) (by decide) (by decide) (by decide) (by decide)).1).trans (by decide)

/-- C5: when the drug-class filter is empty and a cascade member
matches, the search returns the first nonempty cascade member's rows with
`fallback_used = true` and a reason naming the substitute class; the
final conjunct pins down the cascade loop: first nonempty member in
priority order, all earlier members filtering to empty. -/
theorem cascade_fallback (db : List PolicyRow) (state : List Char)
    (payer : Option (List Char)) (dc c : List Char) (rows : List PolicyRow)
    (hdc : dc.isEmpty = false)
    (h1 : (drugFilter (payerStage db state payer).1 dc).isEmpty = true)
    (htry : tryCascade (payerStage db state payer).1 (cascadeClasses dc) = some (c, rows)) :
    search_policies_with_fallback db state payer (some dc) = (rows, true, cascadeMsg dc c) ∧
    containsSub (cascadeMsg dc c) c = true ∧
    (∀ (q : List PolicyRow) (cs : List (List Char)) (c' : List Char) (rows' : List PolicyRow),
      tryCascade q cs = some (c', rows') →
      ∃ pre suf, cs = pre ++ c' :: suf ∧ (∀ x ∈ pre, drugFilter q x = []) ∧
        rows' = drugFilter q c' ∧ rows' ≠ []) := by
  refine ⟨?_, ?_, ?_⟩
  · simp only [search_policies_with_fallback, hdc, Bool.false_eq_true, if_false,
      drugStage, h1, if_true, htry]
  · unfold cascadeMsg
    rw [containsSub_iff]
    have h1 : c <:+: ((("ℹ️ No ").data ++ dc ++ (" policy found. Showing **").data) ++ c) :=
      (List.suffix_append _ c).isInfix
    exact h1.trans (List.prefix_append _ _).isInfix
  · intro q cs
    induction cs with
    | nil => intro c' rows' h; exact absurd h (by simp [tryCascade])
    | cons c0 rest ih =>
      intro c' rows' h
      rw [tryCascade] at h
      by_cases he : (drugFilter q c0).isEmpty
      · rw [if_pos he] at h
        rcases ih c' rows' h with ⟨pre, suf, hcs, hpre, hrows, hne⟩
        refine ⟨c0 :: pre, suf, by rw [hcs]; rfl, ?_, hrows, hne⟩
        intro x hx
        rcases List.mem_cons.mp hx with hx | hx
        · rw [hx]; exact List.isEmpty_iff.mp he
        · exact hpre x hx
      · rw [if_neg he] at h
        cases h
        refine ⟨[], rest, rfl, ?_, rfl, ?_⟩
        · intro x hx; cases hx
        · intro hnil
          rw [hnil] at he
          exact he rfl

/-- Witness for C5: the spec's Qulipta scenario. -/
theorem cascade_fallback_witness :
    search_policies_with_fallback [c5row] (("NJ").data) none
        (some (("Gepants (Preventive)").data)) =
      ([c5row], true, cascadeMsg (("Gepants (Preventive)").data) (("Qulipta").data)) :=
  (cascade_fallback [c5row] (("NJ").data) none (("Gepants (Preventive)").data)
    (("Qulipta").data) [c5row] (by decide) (by decide) (by decide)).1

/-! Machinery relating the shared best-score fold of the fuzzy strategies
to the specification-side selection `specBest`. -/

theorem find?_congr {α : Type} (l : List α) (p q : α → Bool)
    (h : ∀ x ∈ l, p x = q x) : l.find? p = l.find? q := by
  induction l with
  | nil => rfl
  | cons x xs ih =>
    rw [List.find?_cons, List.find?_cons, h x (List.mem_cons_self x xs),
      ih (fun y hy => h y (List.mem_cons_of_mem x hy))]

theorem fuzzyStep_pos (t : ℚ) (n : List Char) (acc : ℚ × Option (List Char))
    (c : List Char × List Char) (h1 : acc.1 < fuzzy_match n c.1)
    (h2 : t ≤ fuzzy_match n c.1) :
    fuzzyStep t n acc c = (fuzzy_match n c.1, some c.2) := if_pos ⟨h1, h2⟩

theorem fuzzyStep_neg (t : ℚ) (n : List Char) (acc : ℚ × Option (List Char))
    (c : List Char × List Char)
    (h : ¬(acc.1 < fuzzy_match n c.1 ∧ t ≤ fuzzy_match n c.1)) :
    fuzzyStep t n acc c = acc := if_neg h

/-- When no candidate strictly improves on the seed, the fold is the
identity. -/
theorem foldl_fuzzyStep_id (t : ℚ) (n : List Char) (i : ℚ × Option (List Char))
    (l : List (List Char × List Char))
    (h : ∀ c ∈ l, ¬(i.1 < fuzzy_match n c.1 ∧ t ≤ fuzzy_match n c.1)) :
    l.foldl (fuzzyStep t n) i = i := by
  induction l with
  | nil => rfl
  | cons c cs ih =>
    rw [List.foldl_cons, fuzzyStep_neg t n i c (h c (List.mem_cons_self c cs))]
    exact ih (fun d hd => h d (List.mem_cons_of_mem c hd))

/-- Every nonempty candidate list has a first candidate attaining the
maximal score. -/
theorem exists_max_cand (n : List Char) (l : List (List Char × List Char))
    (hne : l ≠ []) :
    ∃ c ∈ l, ∀ d ∈ l, fuzzy_match n d.1 ≤ fuzzy_match n c.1 := by
  induction l with
  | nil => exact absurd rfl hne
  | cons c0 r ih =>
    cases r with
    | nil =>
      exact ⟨c0, List.mem_cons_self c0 [], fun d hd => by
        rcases List.mem_cons.mp hd with h | h
        · rw [h]
        · cases h⟩
    | cons c1 r' =>
      rcases ih (by simp) with ⟨m, hm, hmax⟩
      by_cases hc : fuzzy_match n c0.1 ≤ fuzzy_match n m.1
      · refine ⟨m, List.mem_cons_of_mem c0 hm, fun d hd => ?_⟩
        rcases List.mem_cons.mp hd with h | h
        · rw [h]; exact hc
        · exact hmax d h
      · refine ⟨c0, List.mem_cons_self c0 _, fun d hd => ?_⟩
        rcases List.mem_cons.mp hd with h | h
        · rw [h]
        · exact le_trans (hmax d h) (le_of_lt (lt_of_not_le hc))

/-- The seeded regime: after the first update, the running best is the
first candidate that strictly beats the seed and is maximal. -/
theorem scan_seeded (t : ℚ) (n : List Char) (l : List (List Char × List Char)) :
    ∀ (s : ℚ) (k : List Char), t ≤ s →
      l.foldl (fuzzyStep t n) (s, some k) =
        match l.find? (fun c => decide (s < fuzzy_match n c.1) &&
            l.all (fun d => decide (fuzzy_match n d.1 ≤ fuzzy_match n c.1))) with
        | some c => (fuzzy_match n c.1, some c.2)
        | none => (s, some k) := by
  induction l with
  | nil => intro s k _; rfl
  | cons c0 r ih =>
    intro s k hts
    rw [List.foldl_cons, List.find?_cons]
    by_cases hc : s < fuzzy_match n c0.1
    · have ht0 : t ≤ fuzzy_match n c0.1 := le_of_lt (lt_of_le_of_lt hts hc)
      rw [fuzzyStep_pos t n _ c0 hc ht0]
      cases hall : r.all (fun d => decide (fuzzy_match n d.1 ≤ fuzzy_match n c0.1)) with
      | true =>
        have hP : (decide (s < fuzzy_match n c0.1) &&
            (c0 :: r).all (fun d => decide (fuzzy_match n d.1 ≤ fuzzy_match n c0.1))) = true := by
          rw [List.all_cons, hall]
          simp [hc]
        rw [hP]
        rw [ih (fuzzy_match n c0.1) c0.2 ht0]
        have hnone : r.find? (fun c => decide (fuzzy_match n c0.1 < fuzzy_match n c.1) &&
            r.all (fun d => decide (fuzzy_match n d.1 ≤ fuzzy_match n c.1))) = none := by
          rw [List.find?_eq_none]
          intro d hd
          have hle := List.all_eq_true.mp hall d hd
          simp only [decide_eq_true_eq] at hle
          simp only [Bool.and_eq_true, decide_eq_true_eq, not_and]
          intro hcontra
          exact absurd hle (not_le.mpr hcontra)
        rw [hnone]
      | false =>
        have hex : ∃ e ∈ r, fuzzy_match n c0.1 < fuzzy_match n e.1 := by
          rcases List.all_eq_false.mp hall with ⟨e, he, hne⟩
          exact ⟨e, he, lt_of_not_le (fun hle => hne (decide_eq_true hle))⟩
        have hP : (decide (s < fuzzy_match n c0.1) &&
            (c0 :: r).all (fun d => decide (fuzzy_match n d.1 ≤ fuzzy_match n c0.1))) = false := by
          rw [List.all_cons, hall]
          simp
        rw [hP]
        rw [ih (fuzzy_match n c0.1) c0.2 ht0]
        have hcongr : r.find? (fun c => decide (fuzzy_match n c0.1 < fuzzy_match n c.1) &&
              r.all (fun d => decide (fuzzy_match n d.1 ≤ fuzzy_match n c.1))) =
            r.find? (fun c => decide (s < fuzzy_match n c.1) &&
              (c0 :: r).all (fun d => decide (fuzzy_match n d.1 ≤ fuzzy_match n c.1))) := by
          apply find?_congr
          intro x hx
          rw [List.all_cons]
          by_cases hx1 : fuzzy_match n c0.1 < fuzzy_match n x.1
          · have hs : s < fuzzy_match n x.1 := lt_trans hc hx1
            have hc0 : fuzzy_match n c0.1 ≤ fuzzy_match n x.1 := le_of_lt hx1
            simp [hx1, hs, hc0]
          · have hxall : r.all (fun d => decide (fuzzy_match n d.1 ≤ fuzzy_match n x.1)) = false := by
              rcases hex with ⟨e, he, hegt⟩
              rw [List.all_eq_false]
              refine ⟨e, he, ?_⟩
              simp only [decide_eq_true_eq]
              intro hle
              exact hx1 (lt_of_lt_of_le hegt hle)
            simp [hx1, hxall]
        rw [hcongr]
        cases hfind : r.find? (fun c => decide (s < fuzzy_match n c.1) &&
            (c0 :: r).all (fun d => decide (fuzzy_match n d.1 ≤ fuzzy_match n c.1))) with
        | some c => rfl
        | none =>
          exfalso
          rcases hex with ⟨e, he, hegt⟩
          rcases exists_max_cand n r (by intro hnil; rw [hnil] at he; cases he) with ⟨m, hm, hmax⟩
          have hmgt : fuzzy_match n c0.1 < fuzzy_match n m.1 :=
            lt_of_lt_of_le hegt (hmax e he)
          have := List.find?_eq_none.mp hfind m hm
          apply this
          rw [Bool.and_eq_true, List.all_cons, Bool.and_eq_true]
          refine ⟨decide_eq_true (lt_trans hc hmgt), decide_eq_true (le_of_lt hmgt), ?_⟩
          rw [List.all_eq_true]
          exact fun d hd => decide_eq_true (hmax d hd)
    · rw [fuzzyStep_neg t n _ c0 (fun hcontra => hc hcontra.1)]
      have hP : (decide (s < fuzzy_match n c0.1) &&
          (c0 :: r).all (fun d => decide (fuzzy_match n d.1 ≤ fuzzy_match n c0.1))) = false := by
        simp [hc]
      rw [hP]
      rw [ih s k hts]
      have hcongr : r.find? (fun c => decide (s < fuzzy_match n c.1) &&
            r.all (fun d => decide (fuzzy_match n d.1 ≤ fuzzy_match n c.1))) =
          r.find? (fun c => decide (s < fuzzy_match n c.1) &&
            (c0 :: r).all (fun d => decide (fuzzy_match n d.1 ≤ fuzzy_match n c.1))) := by
        apply find?_congr
        intro x hx
        rw [List.all_cons]
        by_cases hxs : s < fuzzy_match n x.1
        · have hc0 : fuzzy_match n c0.1 ≤ fuzzy_match n x.1 :=
            le_trans (le_of_not_lt hc) (le_of_lt hxs)
          simp [hxs, hc0]
        · simp [hxs]
      rw [hcongr]

/-- The unseeded regime: starting from `(0.0, None)`, with a positive
threshold, the fold selects the first candidate attaining the maximal
score provided that maximum reaches the threshold. -/
theorem scan_unseeded (t : ℚ) (ht : 0 < t) (n : List Char)
    (l : List (List Char × List Char)) :
    l.foldl (fuzzyStep t n) (0, none) =
      match l.find? (fun c => decide (t ≤ fuzzy_match n c.1) &&
          l.all (fun d => decide (fuzzy_match n d.1 ≤ fuzzy_match n c.1))) with
      | some c => (fuzzy_match n c.1, some c.2)
      | none => ((0 : ℚ), (none : Option (List Char))) := by
  induction l with
  | nil => rfl
  | cons c0 r ih =>
    rw [List.foldl_cons, List.find?_cons]
    by_cases hc : t ≤ fuzzy_match n c0.1
    · have h0 : (0 : ℚ) < fuzzy_match n c0.1 := lt_of_lt_of_le ht hc
      rw [fuzzyStep_pos t n _ c0 h0 hc]
      rw [scan_seeded t n r (fuzzy_match n c0.1) c0.2 hc]
      cases hall : r.all (fun d => decide (fuzzy_match n d.1 ≤ fuzzy_match n c0.1)) with
      | true =>
        have hP : (decide (t ≤ fuzzy_match n c0.1) &&
            (c0 :: r).all (fun d => decide (fuzzy_match n d.1 ≤ fuzzy_match n c0.1))) = true := by
          rw [List.all_cons, hall]
          simp [hc]
        rw [hP]
        have hnone : r.find? (fun c => decide (fuzzy_match n c0.1 < fuzzy_match n c.1) &&
            r.all (fun d => decide (fuzzy_match n d.1 ≤ fuzzy_match n c.1))) = none := by
          rw [List.find?_eq_none]
          intro d hd
          have hle := List.all_eq_true.mp hall d hd
          simp only [decide_eq_true_eq] at hle
          simp only [Bool.and_eq_true, decide_eq_true_eq, not_and]
          intro hcontra
          exact absurd hle (not_le.mpr hcontra)
        rw [hnone]
      | false =>
        have hex : ∃ e ∈ r, fuzzy_match n c0.1 < fuzzy_match n e.1 := by
          rcases List.all_eq_false.mp hall with ⟨e, he, hne⟩
          exact ⟨e, he, lt_of_not_le (fun hle => hne (decide_eq_true hle))⟩
        have hP : (decide (t ≤ fuzzy_match n c0.1) &&
            (c0 :: r).all (fun d => decide (fuzzy_match n d.1 ≤ fuzzy_match n c0.1))) = false := by
          rw [List.all_cons, hall]
          simp
        rw [hP]
        have hcongr : r.find? (fun c => decide (fuzzy_match n c0.1 < fuzzy_match n c.1) &&
              r.all (fun d => decide (fuzzy_match n d.1 ≤ fuzzy_match n c.1))) =
            r.find? (fun c => decide (t ≤ fuzzy_match n c.1) &&
              (c0 :: r).all (fun d => decide (fuzzy_match n d.1 ≤ fuzzy_match n c.1))) := by
          apply find?_congr
          intro x hx
          rw [List.all_cons]
          by_cases hx1 : fuzzy_match n c0.1 < fuzzy_match n x.1
          · have hs : t ≤ fuzzy_match n x.1 := le_of_lt (lt_of_le_of_lt hc hx1)
            have hc0 : fuzzy_match n c0.1 ≤ fuzzy_match n x.1 := le_of_lt hx1
            simp [hx1, hs, hc0]
          · have hxall : r.all (fun d => decide (fuzzy_match n d.1 ≤ fuzzy_match n x.1)) = false := by
              rcases hex with ⟨e, he, hegt⟩
              rw [List.all_eq_false]
              refine ⟨e, he, ?_⟩
              simp only [decide_eq_true_eq]
              intro hle
              exact hx1 (lt_of_lt_of_le hegt hle)
            simp [hx1, hxall]
        rw [hcongr]
        cases hfind : r.find? (fun c => decide (t ≤ fuzzy_match n c.1) &&
            (c0 :: r).all (fun d => decide (fuzzy_match n d.1 ≤ fuzzy_match n c.1))) with
        | some c => rfl
        | none =>
          exfalso
          rcases hex with ⟨e, he, hegt⟩
          rcases exists_max_cand n r (by intro hnil; rw [hnil] at he; cases he) with ⟨m, hm, hmax⟩
          have hmgt : fuzzy_match n c0.1 < fuzzy_match n m.1 :=
            lt_of_lt_of_le hegt (hmax e he)
          have := List.find?_eq_none.mp hfind m hm
          apply this
          rw [Bool.and_eq_true, List.all_cons, Bool.and_eq_true]
          refine ⟨decide_eq_true (le_of_lt (lt_of_le_of_lt hc hmgt)),
            decide_eq_true (le_of_lt hmgt), ?_⟩
          rw [List.all_eq_true]
          exact fun d hd => decide_eq_true (hmax d hd)
    · rw [fuzzyStep_neg t n _ c0 (fun hcontra => hc hcontra.2)]
      have hP : (decide (t ≤ fuzzy_match n c0.1) &&
          (c0 :: r).all (fun d => decide (fuzzy_match n d.1 ≤ fuzzy_match n c0.1))) = false := by
        simp [hc]
      rw [hP]
      rw [ih]
      have hcongr : r.find? (fun c => decide (t ≤ fuzzy_match n c.1) &&
            r.all (fun d => decide (fuzzy_match n d.1 ≤ fuzzy_match n c.1))) =
          r.find? (fun c => decide (t ≤ fuzzy_match n c.1) &&
            (c0 :: r).all (fun d => decide (fuzzy_match n d.1 ≤ fuzzy_match n c.1))) := by
        apply find?_congr
        intro x hx
        rw [List.all_cons]
        by_cases hxs : t ≤ fuzzy_match n x.1
        · have hc0 : fuzzy_match n c0.1 ≤ fuzzy_match n x.1 :=
            le_trans (le_of_lt (lt_of_not_le hc)) hxs
          simp [hxs, hc0]
        · simp [hxs]
      rw [hcongr]

/-- The strategy fold equals the specification-side selection. -/
theorem scan_eq_specBest (t : ℚ) (ht : 0 < t) (n : List Char)
    (l : List (List Char × List Char)) :
    l.foldl (fuzzyStep t n) (0, none) =
      match specBest t n l with
      | some ks => (ks.2, some ks.1)
      | none => ((0 : ℚ), (none : Option (List Char))) := by
  rw [scan_unseeded t ht n l]
  unfold specBest
  cases l.find? (fun c => decide (t ≤ fuzzy_match n c.1) &&
      l.all (fun d => decide (fuzzy_match n d.1 ≤ fuzzy_match n c.1))) with
  | some c => rfl
  | none => rfl

theorem specBest_none (t : ℚ) (n : List Char) (cands : List (List Char × List Char))
    (h : ∀ c ∈ cands, fuzzy_match n c.1 < t) : specBest t n cands = none := by
  unfold specBest
  have hfind : cands.find? (fun c => decide (t ≤ fuzzy_match n c.1) &&
      cands.all (fun d => decide (fuzzy_match n d.1 ≤ fuzzy_match n c.1))) = none := by
    rw [List.find?_eq_none]
    intro c hc
    simp only [Bool.and_eq_true, decide_eq_true_eq, not_and]
    intro hle _
    exact absurd hle (not_le.mpr (h c hc))
  rw [hfind]

/-- No alias string is registered twice, so the alias index lists exactly
the `(alias, key)` pairs of the table in registration order. -/
theorem alias_to_key_eq_pairs : alias_to_key = builtinAliasPairs := by decide

theorem scanAliases_eq (t : ℚ) (n : List Char) (acc : ℚ × Option (List Char)) :
    scanAliases t n acc = builtinAliasPairs.foldl (fuzzyStep t n) acc := by
  unfold scanAliases
  rw [alias_to_key_eq_pairs]

theorem nested_misspelling_fold (t : ℚ) (n : List Char)
    (dbl : List (List Char × MedRecord)) :
    ∀ acc, dbl.foldl
        (fun a kv => kv.2.common_misspellings.foldl
          (fun a' ms => fuzzyStep t n a' (ms, kv.1)) a) acc =
      (dbl.flatMap (fun kv => kv.2.common_misspellings.map (fun ms => (ms, kv.1)))).foldl
        (fuzzyStep t n) acc := by
  induction dbl with
  | nil => intro acc; rfl
  | cons kv rest ih =>
    intro acc
    rw [List.foldl_cons, List.flatMap_cons, List.foldl_append, List.foldl_map]
    exact ih _

theorem scanMisspellings_eq (t : ℚ) (n : List Char) (acc : ℚ × Option (List Char)) :
    scanMisspellings t n acc = misspellingPairs.foldl (fuzzyStep t n) acc := by
  unfold scanMisspellings misspellingPairs
  exact nested_misspelling_fold t n medication_db acc

theorem scanKeys_eq (t : ℚ) (n : List Char) (acc : ℚ × Option (List Char)) :
    scanKeys t n acc = keyPairs.foldl (fuzzyStep t n) acc := by
  unfold scanKeys keyPairs
  rw [List.foldl_map]

/-- With a positive threshold the fuzzy phase coincides with the
specification-side strategy-by-strategy selection. -/
theorem fmFuzzy_eq_fuzzySpec (t : ℚ) (ht : 0 < t) (n : List Char) :
    fmFuzzy t n = fuzzySpec t n := by
  unfold fmFuzzy fuzzySpec
  rw [scanAliases_eq, scan_eq_specBest t ht n builtinAliasPairs]
  cases specBest t n builtinAliasPairs with
  | some ks => rfl
  | none =>
    simp only []
    rw [scanMisspellings_eq, scan_eq_specBest t ht n misspellingPairs]
    cases specBest t n misspellingPairs with
    | some ks => rfl
    | none =>
      simp only []
      rw [scanKeys_eq, scan_eq_specBest t ht n keyPairs]
      cases specBest t n keyPairs with
      | some ks => rfl
      | none => rfl

theorem fmFuzzy_none_of (t : ℚ) (n : List Char)
    (hA : scanAliases t n (0, none) = (0, none))
    (hM : scanMisspellings t n (0, none) = (0, none))
    (hK : scanKeys t n (0, none) = (0, none)) :
    fmFuzzy t n = none := by
  unfold fmFuzzy
  simp only [hA]
  simp only [hM]
  simp only [hK]

/-- C3, counterexample: at threshold `0.0` (an allowed caller override,
the documented range is 0.0–1.0) every candidate scores at or above the
threshold, yet `find_medication("", 0.0)` returns `None` instead of a
winning candidate, because the update requires a strictly positive score. -/
theorem fuzzy_zero_threshold_counterexample :
    ((("erenumab").data, ("aimovig").data) ∈ builtinAliasPairs ∧
      (0 : ℚ) ≤ fuzzy_match (normalize_input []) (("erenumab").data)) ∧
    assocFind alias_to_key (normalize_input []) = none ∧
    find_medication [] 0 = none := by
  refine ⟨⟨by decide, by decide⟩, by decide, ?_⟩
  have e0 : normalize_input ([] : List Char) = [] := by decide
  unfold find_medication fmAfterNormalize
  rw [e0]
  rw [show assocFind alias_to_key [] = none from by decide]
  rw [show assocFind generic_to_key [] = none from by decide]
  rw [show assocFind brand_to_key [] = none from by decide]
  exact fmFuzzy_none_of 0 []
    (by rw [scanAliases_eq]
        exact foldl_fuzzyStep_id 0 [] (0, none) builtinAliasPairs (by decide))
    (by rw [scanMisspellings_eq]
        exact foldl_fuzzyStep_id 0 [] (0, none) misspellingPairs (by decide))
    (by rw [scanKeys_eq]
        exact foldl_fuzzyStep_id 0 [] (0, none) keyPairs (by decide))

/-- C3, amended: for every input and every positive threshold, when the
exact lookups miss, `find_medication` equals the strategy-by-strategy
specification-side selection (aliases, then curated misspellings, then
canonical keys, each strategy in full, highest score at or above the
threshold winning with ties to the first-registered candidate), and when
no candidate of any strategy reaches the threshold the result is `None`. -/
theorem fuzzy_strategy_selection (input : List Char) (t : ℚ) (ht : 0 < t)
    (e1 : assocFind alias_to_key (normalize_input input) = none)
    (e2 : assocFind generic_to_key (normalize_input input) = none)
    (e3 : assocFind brand_to_key (normalize_input input) = none) :
    find_medication input t = fuzzySpec t (normalize_input input) ∧
    ((∀ c ∈ builtinAliasPairs ++ misspellingPairs ++ keyPairs,
        fuzzy_match (normalize_input input) c.1 < t) →
      find_medication input t = none) := by
  have hmain : find_medication input t = fuzzySpec t (normalize_input input) := by
    unfold find_medication fmAfterNormalize
    rw [e1, e2, e3]
    exact fmFuzzy_eq_fuzzySpec t ht (normalize_input input)
  refine ⟨hmain, ?_⟩
  intro hbelow
  rw [hmain]
  unfold fuzzySpec
  rw [specBest_none t _ builtinAliasPairs (fun c hc => hbelow c (by simp [hc]))]
  rw [specBest_none t _ misspellingPairs (fun c hc => hbelow c (by simp [hc]))]
  rw [specBest_none t _ keyPairs (fun c hc => hbelow c (by simp [hc]))]

/-- Witness for the amended C3 theorem at a concrete fuzzy-path input. -/
theorem fuzzy_strategy_selection_witness :
    (0 : ℚ) < thDefault ∧
    assocFind alias_to_key (normalize_input (("topimax").data)) = none ∧
    find_medication (("topimax").data) thDefault =
      fuzzySpec thDefault (normalize_input (("topimax").data)) :=
  ⟨by decide, by decide,
    (fuzzy_strategy_selection (("topimax").data) thDefault (by decide)
      (by decide) (by decide) (by decide)).1⟩

/-- C1, counterexample: `erenumab-aooe` is an alias of key `aimovig` in
the built-in table, but `find_medication` normalizes the hyphen away
before the exact lookup, so resolution goes through the fuzzy alias
strategy with confidence `12/13`, not through exact lookup with
confidence 1.0. -/
theorem exact_alias_counterexample :
    ((("erenumab-aooe").data, ("aimovig").data) ∈ builtinAliasPairs) ∧
    (find_medication (("erenumab-aooe").data) thDefault).map
        (fun r => (r.key, r.confidence, r.match_type)) =
      some ((("aimovig").data, mkRat 12 13, ("fuzzy_alias").data)) ∧
    ¬ ((mkRat 12 13 : ℚ) = 1) := by
  refine ⟨by decide, ?_, by decide⟩
  rw [find_medication_ereaooe]
  decide

/-- C1, amended: for every alias `A` of key `K` in the built-in table
whose normalization still maps to `K` in the alias index (all aliases
except the hyphenated ones that normalization rewrites), resolution at
any threshold is the exact alias-map hit with confidence 1.0, without
consulting any fuzzy strategy. -/
theorem exact_alias_resolution (A K : List Char) (t : ℚ)
    (_hmem : (A, K) ∈ builtinAliasPairs)
    (hnorm : assocFind alias_to_key (normalize_input A) = some K) :
    find_medication A t = some (build_result K 1 (("exact_alias").data)) ∧
    (build_result K 1 (("exact_alias").data)).confidence = 1 := by
  constructor
  · unfold find_medication fmAfterNormalize
    rw [hnorm]
  · unfold build_result
    cases medication_db.find? (fun kv => kv.1 = K) <;> rfl

/-- Witness for the amended C1 theorem. -/
theorem exact_alias_resolution_witness :
    ((("aimovig").data, ("aimovig").data) ∈ builtinAliasPairs) ∧
    find_medication (("aimovig").data) thDefault =
      some (build_result (("aimovig").data) 1 (("exact_alias").data)) :=
  ⟨by decide,
    (exact_alias_resolution (("aimovig").data) (("aimovig").data) thDefault
      (by decide) (by decide)).1⟩

/-! Lemmas for the idempotence analysis of `normalize_input`. -/

theorem char_toNat_ofNat (n : Nat) (h : n < 55296) : (Char.ofNat n).toNat = n := by
  rw [Char.ofNat, dif_pos (Or.inl h)]
  rfl

theorem map_id_of_mem {α : Type} (f : α → α) (s : List α) (h : ∀ c ∈ s, f c = c) :
    s.map f = s := by
  induction s with
  | nil => rfl
  | cons c t ih =>
    rw [List.map_cons, h c (List.mem_cons_self c t),
      ih (fun d hd => h d (List.mem_cons_of_mem c hd))]

theorem char_eq_of_toNat_eq {c d : Char} (h : c.toNat = d.toNat) : c = d := by
  rcases c with ⟨⟨cb⟩, hc⟩
  rcases d with ⟨⟨db⟩, hd⟩
  have hbd : cb = db := BitVec.eq_of_toNat_eq h
  subst hbd
  rfl

theorem char_toNat_lt (c : Char) : c.toNat < 1114112 := by
  rcases c with ⟨cv, hc⟩
  rcases hc with h | h
  · exact lt_trans h (by norm_num)
  · exact h.2

theorem lowerC_toNat (c : Char) :
    (lowerC c).toNat = if 65 ≤ c.toNat ∧ c.toNat ≤ 90 then c.toNat + 32 else c.toNat := by
  unfold lowerC
  by_cases h : 65 ≤ c.toNat ∧ c.toNat ≤ 90
  · rw [if_pos (by simp [h.1, h.2]), if_pos h]
    exact char_toNat_ofNat _ (by omega)
  · rw [if_neg (by simpa using h), if_neg h]

theorem lowerC_idem (c : Char) : lowerC (lowerC c) = lowerC c := by
  apply char_eq_of_toNat_eq
  by_cases h : 65 ≤ c.toNat ∧ c.toNat ≤ 90
  · have h1 : (lowerC c).toNat = c.toNat + 32 := by rw [lowerC_toNat, if_pos h]
    rw [lowerC_toNat (lowerC c), h1, if_neg (by omega)]
  · have h1 : (lowerC c).toNat = c.toNat := by rw [lowerC_toNat, if_neg h]
    rw [lowerC_toNat (lowerC c), h1, if_neg h]

theorem lowerC_not_digit (c : Char) (h : isDigitC c = false) :
    isDigitC (lowerC c) = false := by
  unfold isDigitC at h ⊢
  rw [lowerC_toNat]
  by_cases hc : 65 ≤ c.toNat ∧ c.toNat ≤ 90
  · rw [if_pos hc]
    simp only [Bool.and_eq_false_iff, decide_eq_false_iff_not]
    omega
  · rw [if_neg hc]
    exact h

theorem lowerC_ne_low (c d : Char) (hd : d.toNat < 65) (h : c ≠ d) : lowerC c ≠ d := by
  intro he
  have ht : (lowerC c).toNat = d.toNat := by rw [he]
  rw [lowerC_toNat] at ht
  by_cases hc : 65 ≤ c.toNat ∧ c.toNat ≤ 90
  · rw [if_pos hc] at ht
    omega
  · rw [if_neg hc] at ht
    exact h (char_eq_of_toNat_eq ht)

theorem cleanInput_lowerStr (x : List Char) (hx : cleanInput x) :
    cleanInput (lowerStr x) := by
  intro c hc
  rcases List.mem_map.mp hc with ⟨c0, hc0, rfl⟩
  rcases hx c0 hc0 with ⟨h1, h2, h3, h4⟩
  exact ⟨lowerC_not_digit c0 h1, lowerC_ne_low c0 _ (by decide) h2,
    lowerC_ne_low c0 _ (by decide) h3, lowerC_ne_low c0 _ (by decide) h4⟩

theorem lowerC_fixed_of_lower (c : Char) : lowerC (lowerC c) = lowerC c := lowerC_idem c

/-! Identity of the stages on restricted inputs. -/

theorem dosageMatchHere_eq_false (s : List Char)
    (h : ∀ c ∈ s, isDigitC c = false) : dosageMatchHere s = false := by
  cases s with
  | nil => rfl
  | cons c t =>
    simp only [dosageMatchHere, h c (List.mem_cons_self c t), Bool.false_and]

theorem dosageSub_id (s : List Char) (h : ∀ c ∈ s, isDigitC c = false) :
    dosageSub s = s := by
  induction s with
  | nil => rfl
  | cons c t ih =>
    rw [dosageSub, if_neg (by
      rw [dosageMatchHere_eq_false (c :: t) h]
      exact Bool.false_ne_true)]
    rw [ih (fun d hd => h d (List.mem_cons_of_mem c hd))]

theorem parenSubAux_id (fuel : Nat) (s : List Char) (h : ∀ c ∈ s, c ≠ '(') :
    parenSubAux fuel s = s := by
  induction fuel generalizing s with
  | zero => rfl
  | succ fuel ih =>
    cases s with
    | nil => rfl
    | cons c t =>
      rw [parenSubAux, if_neg (h c (List.mem_cons_self c t)),
        ih t (fun d hd => h d (List.mem_cons_of_mem c hd))]

theorem parenSub_id (s : List Char) (h : ∀ c ∈ s, c ≠ '(') : parenSub s = s :=
  parenSubAux_id s.length s h

theorem hyphenRep_id (s : List Char) (h : ∀ c ∈ s, c ≠ '-') : hyphenRep s = s := by
  unfold hyphenRep
  exact map_id_of_mem _ s (fun c hc => by rw [if_neg (h c hc)])

theorem lowerStr_id (s : List Char) (h : ∀ c ∈ s, lowerC c = c) : lowerStr s = s := by
  unfold lowerStr
  exact map_id_of_mem _ s h

/-! Structure of the suffix-token substitution. -/

theorem anchorResidual_nil (l : List Char) (h : ∀ c ∈ l, c ≠ '\n') :
    anchorResidual l = [] := by
  unfold anchorResidual
  cases hg : l.getLast? with
  | none => rfl
  | some c =>
    rw [if_neg]
    intro he
    exact h c (List.mem_of_mem_getLast? hg) (Option.some.inj he)

theorem anchorOk_of_no_newline (l : List Char) (h : ∀ c ∈ l, c ≠ '\n') :
    anchorOk l = true := by
  unfold anchorOk
  cases hc : l.dropLast.contains '\n' with
  | false => rfl
  | true =>
    exfalso
    have hm : '\n' ∈ l.dropLast := List.elem_iff.mp hc
    exact h '\n' (List.Sublist.mem hm (List.dropLast_sublist l)) rfl

theorem isWordC_eq_false_of_space (c : Char) (h : isSpaceC c = true) :
    isWordC c = false := by
  unfold isSpaceC at h
  simp only [Bool.or_eq_true, decide_eq_true_eq] at h
  rcases h with ((((h | h) | h) | h) | h) | h <;> subst h <;> decide

theorem tokenHere_nil : tokenHere [] = false := by decide

theorem suffixTokens_nospace : ∀ tk ∈ suffixTokens, ∀ c ∈ tk, isSpaceC c = false := by
  decide

theorem any_congr_local {α : Type} (l : List α) (p q : α → Bool)
    (h : ∀ a ∈ l, p a = q a) : l.any p = l.any q := by
  induction l with
  | nil => rfl
  | cons a t ih =>
    rw [List.any_cons, List.any_cons, h a (List.mem_cons_self a t),
      ih (fun b hb => h b (List.mem_cons_of_mem a hb))]

theorem tokenHere_extend (v r : List Char) (hv : tokenHere v = true)
    (hnl : ∀ c ∈ v ++ r, c ≠ '\n')
    (hr : r = [] ∨ ∃ d r', r = d :: r' ∧ isWordC d = false) :
    tokenHere (v ++ r) = true := by
  unfold tokenHere at hv ⊢
  rw [List.any_eq_true] at hv ⊢
  obtain ⟨tk, htk, hp⟩ := hv
  refine ⟨tk, htk, ?_⟩
  simp only [Bool.and_eq_true] at hp ⊢
  obtain ⟨⟨hpre, hbd⟩, _⟩ := hp
  have hpre' : tk <+: v := List.isPrefixOf_iff_prefix.mp hpre
  have hlen : tk.length ≤ v.length := hpre'.length_le
  refine ⟨⟨?_, ?_⟩, ?_⟩
  · exact List.isPrefixOf_iff_prefix.mpr (hpre'.trans (List.prefix_append v r))
  · rcases Nat.lt_or_ge tk.length v.length with hlt | hge
    · have hd : (v ++ r).drop tk.length = v.drop tk.length ++ r :=
        List.drop_append_of_le_length (Nat.le_of_lt hlt)
      cases hvd : v.drop tk.length with
      | nil =>
        exfalso
        have hlv := congrArg List.length hvd
        rw [List.length_drop] at hlv
        simp at hlv
        omega
      | cons b bs =>
        rw [hd, hvd, List.cons_append]
        rw [hvd] at hbd
        exact hbd
    · have he : tk.length = v.length := Nat.le_antisymm hlen hge
      have hd : (v ++ r).drop tk.length = r := by
        rw [List.drop_append_of_le_length (Nat.le_of_eq he), he, List.drop_length,
          List.nil_append]
      rw [hd]
      rcases hr with rfl | ⟨d, r', rfl, hdw⟩
      · rfl
      · show (!isWordC d) = true
        rw [hdw]
        rfl
  · apply anchorOk_of_no_newline
    intro c hc
    exact hnl c (List.Sublist.mem hc ((List.drop_suffix _ _).sublist))

theorem tokenHere_eq_wordTok (w : List Char) (h : ∀ c ∈ w, c ≠ '\n') :
    tokenHere w = wordTok w := by
  unfold tokenHere wordTok
  apply any_congr_local
  intro tk _
  have ha : anchorOk (w.drop tk.length) = true :=
    anchorOk_of_no_newline _
      (fun c hc => h c (List.Sublist.mem hc ((List.drop_suffix _ _).sublist)))
  rw [ha, Bool.and_true]

theorem suffixSub_pre (t : List Char) (h : ∀ c ∈ t, c ≠ '\n') :
    ∃ r, t = suffixSub t ++ r ∧
      (r = [] ∨ ∃ c r', r = c :: r' ∧ isSpaceC c = true) := by
  induction t with
  | nil => exact ⟨[], rfl, Or.inl rfl⟩
  | cons c t ih =>
    by_cases hm : suffixMatchHere (c :: t) = true
    · refine ⟨c :: t, ?_, Or.inr ⟨c, t, rfl, ?_⟩⟩
      · rw [suffixSub, if_pos hm, anchorResidual_nil _ h, List.nil_append]
      · simp only [suffixMatchHere, Bool.and_eq_true] at hm
        exact hm.1
    · obtain ⟨r, hr, hro⟩ := ih (fun d hd => h d (List.mem_cons_of_mem c hd))
      refine ⟨r, ?_, hro⟩
      rw [suffixSub, if_neg hm, List.cons_append, ← hr]

theorem hasSuffixMatch_cons (c : Char) (t : List Char) :
    hasSuffixMatch (c :: t) = (suffixMatchHere (c :: t) || hasSuffixMatch t) := rfl

theorem suffixSub_id_of_no_match (s : List Char) (h : hasSuffixMatch s = false) :
    suffixSub s = s := by
  induction s with
  | nil => rfl
  | cons c t ih =>
    rw [hasSuffixMatch_cons, Bool.or_eq_false_iff] at h
    rw [suffixSub, if_neg (by rw [h.1]; exact Bool.false_ne_true), ih h.2]

theorem hasSuffixMatch_append (a b : List Char) (h : hasSuffixMatch b = true) :
    hasSuffixMatch (a ++ b) = true := by
  induction a with
  | nil => exact h
  | cons c t ih =>
    rw [List.cons_append, hasSuffixMatch_cons, ih, Bool.or_true]

theorem hasSuffixMatch_suffixSub (s : List Char) (h : ∀ c ∈ s, c ≠ '\n') :
    hasSuffixMatch (suffixSub s) = false := by
  induction s with
  | nil => rfl
  | cons c t ih =>
    have ht : ∀ d ∈ t, d ≠ '\n' := fun d hd => h d (List.mem_cons_of_mem c hd)
    by_cases hm : suffixMatchHere (c :: t) = true
    · rw [suffixSub, if_pos hm, anchorResidual_nil _ h]
      rfl
    · rw [suffixSub, if_neg hm]
      cases hsub : suffixSub t with
      | nil =>
        rw [hasSuffixMatch_cons]
        rw [hsub] at ih
        rw [ih ht, Bool.or_false]
        by_cases hsp : isSpaceC c = true
        · simp only [suffixMatchHere, hsp, Bool.true_and]
          simp only [suffixMatchHere, hsp, Bool.true_and] at hm
          cases hq : tokenHere (List.dropWhile isSpaceC []) with
          | false => rfl
          | true =>
            exfalso
            rw [List.dropWhile_nil, tokenHere_nil] at hq
            exact Bool.false_ne_true hq
        · rw [Bool.not_eq_true] at hsp
          simp only [suffixMatchHere, hsp, Bool.false_and]
      | cons b0 bs0 =>
        rw [← hsub]
        rw [hasSuffixMatch_cons, ih ht, Bool.or_false]
        by_cases hsp : isSpaceC c = true
        · simp only [suffixMatchHere, hsp, Bool.true_and]
          simp only [suffixMatchHere, hsp, Bool.true_and] at hm
          cases hq : tokenHere ((suffixSub t).dropWhile isSpaceC) with
          | false => rfl
          | true =>
            exfalso
            obtain ⟨r, hr, hro⟩ := suffixSub_pre t ht
            rcases hro with rfl | ⟨d, r', rfl, hd⟩
            · rw [List.append_nil] at hr
              rw [← hr] at hq
              exact hm hq
            · cases hu : (suffixSub t).dropWhile isSpaceC with
              | nil =>
                rw [hu, tokenHere_nil] at hq
                exact Bool.false_ne_true hq
              | cons b bs =>
                apply hm
                have hdw : t.dropWhile isSpaceC = (b :: bs) ++ d :: r' := by
                  rw [hr, List.dropWhile_append, hu, List.isEmpty_cons,
                    if_neg Bool.false_ne_true]
                rw [hdw]
                rw [hu] at hq
                apply tokenHere_extend (b :: bs) (d :: r') hq
                · intro x hx
                  rw [← hdw] at hx
                  exact ht x (List.Sublist.mem hx ((List.dropWhile_suffix isSpaceC).sublist))
                · exact Or.inr ⟨d, r', rfl, isWordC_eq_false_of_space d hd⟩
        · rw [Bool.not_eq_true] at hsp
          simp only [suffixMatchHere, hsp, Bool.false_and]

/-! Word structure of `str.split()` / `' '.join`. -/

theorem pySplitAux_space (c : Char) (t : List Char) (hc : isSpaceC c = true) :
    pySplitAux [] (c :: t) = pySplitAux [] t := by
  rw [pySplitAux, if_pos hc, if_pos rfl]

theorem pySplitAux_ne (s : List Char) : ∀ cur : List Char, cur ≠ [] →
    pySplitAux cur s =
      (cur.reverse ++ s.takeWhile (fun d => !isSpaceC d)) ::
        pySplitAux [] (s.dropWhile (fun d => !isSpaceC d)) := by
  induction s with
  | nil =>
    intro cur hcur
    rw [pySplitAux, if_neg hcur, List.takeWhile_nil, List.dropWhile_nil, List.append_nil]
    rfl
  | cons c t ih =>
    intro cur hcur
    by_cases hc : isSpaceC c = true
    · rw [pySplitAux, if_pos hc, if_neg hcur, List.takeWhile_cons, List.dropWhile_cons]
      simp only [hc, Bool.not_true, Bool.false_eq_true, if_false]
      rw [List.append_nil, pySplitAux_space c t hc]
    · rw [Bool.not_eq_true] at hc
      have hb : (!isSpaceC c) = true := by rw [hc]; rfl
      rw [pySplitAux, if_neg (by rw [hc]; exact Bool.false_ne_true)]
      rw [ih (c :: cur) (List.cons_ne_nil c cur)]
      rw [List.takeWhile_cons, List.dropWhile_cons, if_pos hb, if_pos hb]
      rw [List.reverse_cons, List.append_assoc]
      rfl

theorem pySplit_cons_space (c : Char) (t : List Char) (hc : isSpaceC c = true) :
    pySplit (c :: t) = pySplit t := pySplitAux_space c t hc

theorem pySplit_cons_ne (c : Char) (t : List Char) (hc : isSpaceC c = false) :
    pySplit (c :: t) =
      (c :: t.takeWhile (fun d => !isSpaceC d)) ::
        pySplit (t.dropWhile (fun d => !isSpaceC d)) := by
  unfold pySplit
  rw [pySplitAux, if_neg (by rw [hc]; exact Bool.false_ne_true)]
  rw [pySplitAux_ne t [c] (List.cons_ne_nil c [])]
  rfl

theorem pySplit_words_aux : ∀ (n : Nat) (u : List Char), u.length ≤ n →
    ∀ w ∈ pySplit u, w ≠ [] ∧ ∀ c ∈ w, isSpaceC c = false := by
  intro n
  induction n with
  | zero =>
    intro u hu w hw
    rw [List.length_eq_zero.mp (Nat.le_zero.mp hu)] at hw
    cases hw
  | succ n ih =>
    intro u hu w hw
    cases u with
    | nil => cases hw
    | cons c t =>
      have ht : t.length ≤ n := by
        rw [List.length_cons] at hu
        exact Nat.succ_le_succ_iff.mp hu
      cases hc : isSpaceC c with
      | true =>
        rw [pySplit_cons_space c t hc] at hw
        exact ih t ht w hw
      | false =>
        rw [pySplit_cons_ne c t hc] at hw
        rcases List.mem_cons.mp hw with rfl | hw'
        · refine ⟨List.cons_ne_nil _ _, ?_⟩
          intro d hd
          rcases List.mem_cons.mp hd with rfl | hd'
          · exact hc
          · have hp := List.mem_takeWhile_imp hd'
            simp only [Bool.not_eq_true'] at hp
            exact hp
        · have ht' : (t.dropWhile (fun d => !isSpaceC d)).length ≤ n :=
            le_trans ((List.dropWhile_suffix _).length_le) ht
          exact ih _ ht' w hw'

theorem pySplit_words (u : List Char) :
    ∀ w ∈ pySplit u, w ≠ [] ∧ ∀ c ∈ w, isSpaceC c = false :=
  pySplit_words_aux u.length u (Nat.le_refl _)

theorem pySplit_joinSp (ws : List (List Char))
    (h : ∀ w ∈ ws, w ≠ [] ∧ ∀ c ∈ w, isSpaceC c = false) :
    pySplit (joinSp ws) = ws := by
  induction ws with
  | nil => rfl
  | cons w ws ih =>
    obtain ⟨hne, hsf⟩ := h w (List.mem_cons_self w ws)
    obtain ⟨d, w', rfl⟩ : ∃ d w', w = d :: w' := by
      cases w with
      | nil => exact absurd rfl hne
      | cons d w' => exact ⟨d, w', rfl⟩
    have hd : isSpaceC d = false := hsf d (List.mem_cons_self d w')
    have hw1 : w'.takeWhile (fun e => !isSpaceC e) = w' :=
      List.takeWhile_eq_self_iff.mpr (fun x hx => by
        rw [hsf x (List.mem_cons_of_mem d hx)]; rfl)
    have hw2 : w'.dropWhile (fun e => !isSpaceC e) = [] :=
      List.dropWhile_eq_nil_iff.mpr (fun x hx => by
        rw [hsf x (List.mem_cons_of_mem d hx)]; rfl)
    cases ws with
    | nil =>
      show pySplit (d :: w') = [d :: w']
      rw [pySplit_cons_ne d w' hd, hw1, hw2]
      rfl
    | cons w1 ws' =>
      show pySplit ((d :: w') ++ ' ' :: joinSp (w1 :: ws')) = (d :: w') :: w1 :: ws'
      rw [List.cons_append, pySplit_cons_ne d _ hd]
      have htw : (w' ++ ' ' :: joinSp (w1 :: ws')).takeWhile (fun e => !isSpaceC e) = w' := by
        rw [List.takeWhile_append, if_pos (by rw [hw1])]
        rw [List.takeWhile_cons, if_neg (by decide), List.append_nil]
      have hdw : (w' ++ ' ' :: joinSp (w1 :: ws')).dropWhile (fun e => !isSpaceC e) =
          ' ' :: joinSp (w1 :: ws') := by
        rw [List.dropWhile_append, hw2, List.isEmpty_nil, if_pos rfl]
        rw [List.dropWhile_cons, if_neg (by decide)]
      rw [htw, hdw, pySplit_cons_space _ _ (by decide)]
      rw [ih (fun x hx => h x (List.mem_cons_of_mem _ hx))]

theorem collapseWs_idem (u : List Char) : collapseWs (collapseWs u) = collapseWs u := by
  unfold collapseWs
  rw [pySplit_joinSp (pySplit u) (pySplit_words u)]

theorem dropWhile_eq_self_of_head {p : Char → Bool} (l : List Char)
    (h : ∀ c, l.head? = some c → p c = false) : l.dropWhile p = l := by
  cases l with
  | nil => rfl
  | cons c t =>
    rw [List.dropWhile_cons, if_neg (by rw [h c rfl]; exact Bool.false_ne_true)]

theorem joinSp_ne_nil (w : List Char) (ws : List (List Char)) (hw : w ≠ []) :
    joinSp (w :: ws) ≠ [] := by
  cases ws with
  | nil => exact hw
  | cons w1 ws' =>
    show w ++ ' ' :: joinSp (w1 :: ws') ≠ []
    intro he
    rcases List.append_eq_nil.mp he with ⟨_, h2⟩
    exact List.cons_ne_nil _ _ h2

theorem joinSp_head_not_space (ws : List (List Char))
    (h : ∀ w ∈ ws, w ≠ [] ∧ ∀ c ∈ w, isSpaceC c = false) :
    (joinSp ws).dropWhile isSpaceC = joinSp ws := by
  cases ws with
  | nil => rfl
  | cons w ws =>
    obtain ⟨hne, hsf⟩ := h w (List.mem_cons_self w ws)
    obtain ⟨d, w', rfl⟩ : ∃ d w', w = d :: w' := by
      cases w with
      | nil => exact absurd rfl hne
      | cons d w' => exact ⟨d, w', rfl⟩
    have hd : isSpaceC d = false := hsf d (List.mem_cons_self d w')
    cases ws with
    | nil =>
      show (d :: w').dropWhile isSpaceC = d :: w'
      rw [List.dropWhile_cons, if_neg (by rw [hd]; exact Bool.false_ne_true)]
    | cons w1 ws' =>
      show ((d :: w') ++ ' ' :: joinSp (w1 :: ws')).dropWhile isSpaceC = _
      rw [List.cons_append, List.dropWhile_cons,
        if_neg (by rw [hd]; exact Bool.false_ne_true)]
      rfl

theorem joinSp_getLast (ws : List (List Char))
    (h : ∀ w ∈ ws, w ≠ [] ∧ ∀ c ∈ w, isSpaceC c = false) :
    ∀ c, (joinSp ws).getLast? = some c → isSpaceC c = false := by
  induction ws with
  | nil =>
    intro c hc
    exact Option.noConfusion hc
  | cons w ws ih =>
    intro c hc
    obtain ⟨hne, hsf⟩ := h w (List.mem_cons_self w ws)
    cases ws with
    | nil =>
      have hw : w.getLast? = some c := hc
      exact hsf c (List.mem_of_mem_getLast? hw)
    | cons w1 ws' =>
      obtain ⟨hne1, _⟩ := h w1 (List.mem_cons_of_mem w (List.mem_cons_self w1 ws'))
      have hc' : (w ++ ' ' :: joinSp (w1 :: ws')).getLast? = some c := hc
      rw [List.getLast?_append] at hc'
      have hg : (' ' :: joinSp (w1 :: ws')).getLast? = (joinSp (w1 :: ws')).getLast? := by
        cases hev : joinSp (w1 :: ws') with
        | nil => exact absurd hev (joinSp_ne_nil w1 ws' hne1)
        | cons a l => rw [List.getLast?_cons_cons]
      rw [hg] at hc'
      cases hgl : (joinSp (w1 :: ws')).getLast? with
      | none =>
        exact absurd (List.getLast?_eq_none_iff.mp hgl) (joinSp_ne_nil w1 ws' hne1)
      | some x =>
        rw [hgl] at hc'
        have hxc : x = c := Option.some.inj hc'
        subst hxc
        exact ih (fun y hy => h y (List.mem_cons_of_mem w hy)) x hgl

theorem stripWs_collapseWs (u : List Char) : stripWs (collapseWs u) = collapseWs u := by
  unfold stripWs collapseWs
  rw [joinSp_head_not_space (pySplit u) (pySplit_words u)]
  have h2 : (joinSp (pySplit u)).reverse.dropWhile isSpaceC = (joinSp (pySplit u)).reverse := by
    apply dropWhile_eq_self_of_head
    intro c hc
    rw [List.head?_reverse] at hc
    exact joinSp_getLast (pySplit u) (pySplit_words u) c hc
  rw [h2, List.reverse_reverse]

theorem mem_pySplit_aux : ∀ (n : Nat) (u : List Char), u.length ≤ n →
    ∀ w ∈ pySplit u, ∀ c ∈ w, c ∈ u := by
  intro n
  induction n with
  | zero =>
    intro u hu w hw
    rw [List.length_eq_zero.mp (Nat.le_zero.mp hu)] at hw
    cases hw
  | succ n ih =>
    intro u hu w hw c hc
    cases u with
    | nil => cases hw
    | cons c0 t =>
      have ht : t.length ≤ n := by
        rw [List.length_cons] at hu
        exact Nat.succ_le_succ_iff.mp hu
      cases hc0 : isSpaceC c0 with
      | true =>
        rw [pySplit_cons_space c0 t hc0] at hw
        exact List.mem_cons_of_mem c0 (ih t ht w hw c hc)
      | false =>
        rw [pySplit_cons_ne c0 t hc0] at hw
        rcases List.mem_cons.mp hw with rfl | hw'
        · rcases List.mem_cons.mp hc with rfl | hc'
          · exact List.mem_cons_self _ _
          · exact List.mem_cons_of_mem _
              (List.Sublist.mem hc' (List.takeWhile_sublist _))
        · have ht' : (t.dropWhile (fun d => !isSpaceC d)).length ≤ n :=
            le_trans ((List.dropWhile_suffix _).length_le) ht
          have := ih _ ht' w hw' c hc
          exact List.mem_cons_of_mem _
            (List.Sublist.mem this ((List.dropWhile_suffix _).sublist))

theorem mem_pySplit (u : List Char) : ∀ w ∈ pySplit u, ∀ c ∈ w, c ∈ u :=
  mem_pySplit_aux u.length u (Nat.le_refl _)

theorem mem_joinSp (ws : List (List Char)) :
    ∀ c ∈ joinSp ws, (∃ w ∈ ws, c ∈ w) ∨ c = ' ' := by
  induction ws with
  | nil =>
    intro c hc
    cases hc
  | cons w ws ih =>
    intro c hc
    cases ws with
    | nil => exact Or.inl ⟨w, List.mem_cons_self w [], hc⟩
    | cons w1 ws' =>
      have hc' : c ∈ w ++ ' ' :: joinSp (w1 :: ws') := hc
      rcases List.mem_append.mp hc' with h1 | h2
      · exact Or.inl ⟨w, List.mem_cons_self _ _, h1⟩
      · rcases List.mem_cons.mp h2 with rfl | h3
        · exact Or.inr rfl
        · rcases ih c h3 with ⟨w2, hw2, hcw⟩ | hsp
          · exact Or.inl ⟨w2, List.mem_cons_of_mem w hw2, hcw⟩
          · exact Or.inr hsp

theorem mem_collapseWs (u : List Char) : ∀ c ∈ collapseWs u, c ∈ u ∨ c = ' ' := by
  intro c hc
  rcases mem_joinSp (pySplit u) c hc with ⟨w, hw, hcw⟩ | hsp
  · exact Or.inl (mem_pySplit u w hw c hcw)
  · exact Or.inr hsp

theorem hasSuffixMatch_append_nospace (w r : List Char)
    (hw : ∀ c ∈ w, isSpaceC c = false) :
    hasSuffixMatch (w ++ r) = hasSuffixMatch r := by
  induction w with
  | nil => rfl
  | cons c t ih =>
    rw [List.cons_append, hasSuffixMatch_cons]
    have hm : suffixMatchHere (c :: (t ++ r)) = false := by
      simp only [suffixMatchHere, hw c (List.mem_cons_self c t), Bool.false_and]
    rw [hm, Bool.false_or, ih (fun d hd => hw d (List.mem_cons_of_mem c hd))]

theorem hasSuffixMatch_nospace (w : List Char) (hw : ∀ c ∈ w, isSpaceC c = false) :
    hasSuffixMatch w = false := by
  have h := hasSuffixMatch_append_nospace w [] hw
  rw [List.append_nil] at h
  rw [h]
  rfl

theorem tokenHere_joinSp (w1 : List Char) (ws' : List (List Char))
    (h : ∀ w ∈ w1 :: ws', w ≠ [] ∧ ∀ c ∈ w, isSpaceC c = false) :
    tokenHere (joinSp (w1 :: ws')) = wordTok w1 := by
  have hnl : ∀ c ∈ joinSp (w1 :: ws'), c ≠ '\n' := by
    intro c hc he
    rcases mem_joinSp _ c hc with ⟨w, hw, hcw⟩ | hsp
    · have hs := (h w hw).2 c hcw
      rw [he] at hs
      exact absurd hs (by decide)
    · exact absurd (he ▸ hsp) (by decide)
  cases ws' with
  | nil => exact tokenHere_eq_wordTok w1 (fun c hc => hnl c hc)
  | cons w2 ws'' =>
    obtain ⟨hne1, hsf1⟩ := h w1 (List.mem_cons_self _ _)
    have hj : joinSp (w1 :: w2 :: ws'') = w1 ++ ' ' :: joinSp (w2 :: ws'') := rfl
    cases hq : wordTok w1 with
    | true =>
      have ht1 : tokenHere w1 = true := by
        rw [tokenHere_eq_wordTok w1
          (fun c hc => hnl c (by rw [hj]; exact List.mem_append_left _ hc))]
        exact hq
      rw [hj]
      exact tokenHere_extend w1 (' ' :: joinSp (w2 :: ws'')) ht1
        (fun c hc => hnl c (by rw [hj]; exact hc))
        (Or.inr ⟨' ', joinSp (w2 :: ws''), rfl, by decide⟩)
    | false =>
      rw [hj]
      cases hp : tokenHere (w1 ++ ' ' :: joinSp (w2 :: ws'')) with
      | false => rfl
      | true =>
        exfalso
        unfold tokenHere at hp
        rw [List.any_eq_true] at hp
        obtain ⟨tk, htk, hpr⟩ := hp
        simp only [Bool.and_eq_true] at hpr
        obtain ⟨⟨hpre, hbd⟩, _⟩ := hpr
        have hpre' : tk <+: w1 ++ ' ' :: joinSp (w2 :: ws'') :=
          List.isPrefixOf_iff_prefix.mp hpre
        have htksp : ∀ c ∈ tk, isSpaceC c = false := suffixTokens_nospace tk htk
        have hlen : tk.length ≤ w1.length := by
          by_contra hgt
          push_neg at hgt
          have htke : tk = (w1 ++ ' ' :: joinSp (w2 :: ws'')).take tk.length :=
            List.prefix_iff_eq_take.mp hpre'
          have hsp : ' ' ∈ tk := by
            rw [htke, List.take_append_eq_append_take]
            apply List.mem_append_right
            obtain ⟨m, hm⟩ : ∃ m, tk.length - w1.length = m + 1 :=
              ⟨tk.length - w1.length - 1, by omega⟩
            rw [hm, List.take_succ_cons]
            exact List.mem_cons_self _ _
          have hf := htksp ' ' hsp
          exact absurd hf (by decide)
        have htkw : tk = w1.take tk.length := by
          have he := List.prefix_iff_eq_take.mp hpre'
          rw [List.take_append_of_le_length hlen] at he
          exact he
        have hpw : tk <+: w1 := by
          rw [htkw]
          exact List.take_prefix _ _
        have hw1 : wordTok w1 = true := by
          unfold wordTok
          rw [List.any_eq_true]
          refine ⟨tk, htk, ?_⟩
          simp only [Bool.and_eq_true]
          refine ⟨ List.isPrefixOf_iff_prefix.mpr hpw, ?_⟩
          rcases Nat.lt_or_ge tk.length w1.length with hlt | hge2
          · cases hvd : w1.drop tk.length with
            | nil =>
              exfalso
              have hlv := congrArg List.length hvd
              rw [List.length_drop] at hlv
              simp at hlv
              omega
            | cons b bs =>
              have hrw : (w1 ++ ' ' :: joinSp (w2 :: ws'')).drop tk.length =
                  b :: (bs ++ ' ' :: joinSp (w2 :: ws'')) := by
                rw [List.drop_append_of_le_length (Nat.le_of_lt hlt), hvd, List.cons_append]
              rw [hrw] at hbd
              exact hbd
          · have he : tk.length = w1.length := Nat.le_antisymm hlen hge2
            rw [he, List.drop_length]
        rw [hw1] at hq
        exact Bool.noConfusion hq

theorem hasSuffixMatch_joinSp (ws : List (List Char))
    (h : ∀ w ∈ ws, w ≠ [] ∧ ∀ c ∈ w, isSpaceC c = false) :
    hasSuffixMatch (joinSp ws) = ws.tail.any wordTok := by
  induction ws with
  | nil => rfl
  | cons w ws ih =>
    obtain ⟨hne, hsf⟩ := h w (List.mem_cons_self w ws)
    cases ws with
    | nil =>
      show hasSuffixMatch w = List.any [] wordTok
      rw [hasSuffixMatch_nospace w hsf]
      rfl
    | cons w1 ws' =>
      have hrest : ∀ w' ∈ w1 :: ws', w' ≠ [] ∧ ∀ c ∈ w', isSpaceC c = false :=
        fun w' hw' => h w' (List.mem_cons_of_mem w hw')
      show hasSuffixMatch (w ++ ' ' :: joinSp (w1 :: ws')) = (w1 :: ws').any wordTok
      rw [hasSuffixMatch_append_nospace w _ hsf, hasSuffixMatch_cons]
      have h1 : isSpaceC ' ' = true := by decide
      have hsm : suffixMatchHere (' ' :: joinSp (w1 :: ws')) =
          tokenHere ((joinSp (w1 :: ws')).dropWhile isSpaceC) := by
        simp only [suffixMatchHere, h1, Bool.true_and]
      rw [hsm, joinSp_head_not_space (w1 :: ws') hrest,
        tokenHere_joinSp w1 ws' hrest, ih hrest, List.any_cons, List.tail_cons]

theorem pySplit_any_wordTok_aux : ∀ (n : Nat) (v : List Char), v.length ≤ n →
    (∀ c ∈ v, c ≠ '\n') → (pySplit v).any wordTok = true →
    tokenHere (v.dropWhile isSpaceC) = true ∨ hasSuffixMatch v = true := by
  intro n
  induction n with
  | zero =>
    intro v hv _ ha
    rw [List.length_eq_zero.mp (Nat.le_zero.mp hv)] at ha
    exact absurd ha (by decide)
  | succ n ih =>
    intro v hv hnl ha
    cases v with
    | nil => exact absurd ha (by decide)
    | cons c t =>
      have ht : t.length ≤ n := by
        rw [List.length_cons] at hv
        exact Nat.succ_le_succ_iff.mp hv
      have htn : ∀ d ∈ t, d ≠ '\n' := fun d hd => hnl d (List.mem_cons_of_mem c hd)
      cases hc : isSpaceC c with
      | true =>
        rw [pySplit_cons_space c t hc] at ha
        rcases ih t ht htn ha with h1 | h2
        · left
          rw [List.dropWhile_cons, if_pos hc]
          exact h1
        · right
          rw [hasSuffixMatch_cons, h2, Bool.or_true]
      | false =>
        rw [pySplit_cons_ne c t hc] at ha
        rw [List.any_cons, Bool.or_eq_true] at ha
        have hsplit : c :: t =
            (c :: t.takeWhile (fun d => !isSpaceC d)) ++ t.dropWhile (fun d => !isSpaceC d) := by
          rw [List.cons_append, List.takeWhile_append_dropWhile]
        rcases ha with h1 | h2
        · left
          rw [List.dropWhile_cons, if_neg (by rw [hc]; exact Bool.false_ne_true)]
          have hw : tokenHere (c :: t.takeWhile (fun d => !isSpaceC d)) = true := by
            rw [tokenHere_eq_wordTok]
            · exact h1
            · intro x hx
              rcases List.mem_cons.mp hx with rfl | hx'
              · exact hnl _ (List.mem_cons_self _ _)
              · exact htn x (List.Sublist.mem hx' (List.takeWhile_sublist _))
          rw [hsplit]
          apply tokenHere_extend _ _ hw
          · intro x hx
            rw [← hsplit] at hx
            exact hnl x hx
          · cases hdr : t.dropWhile (fun d => !isSpaceC d) with
            | nil => exact Or.inl rfl
            | cons b bs =>
              refine Or.inr ⟨b, bs, rfl, ?_⟩
              have hb := List.head?_dropWhile_not (fun d => !isSpaceC d) t
              rw [hdr] at hb
              apply isWordC_eq_false_of_space
              simpa using hb
        · have ht' : (t.dropWhile (fun d => !isSpaceC d)).length ≤ n :=
            le_trans ((List.dropWhile_suffix _).length_le) ht
          have htn' : ∀ d ∈ t.dropWhile (fun d => !isSpaceC d), d ≠ '\n' :=
            fun d hd => htn d (List.Sublist.mem hd ((List.dropWhile_suffix _).sublist))
          rcases ih _ ht' htn' h2 with h3 | h4
          · cases hdr : t.dropWhile (fun d => !isSpaceC d) with
            | nil =>
              rw [hdr, List.dropWhile_nil, tokenHere_nil] at h3
              exact absurd h3 Bool.false_ne_true
            | cons b bs =>
              have hb : isSpaceC b = true := by
                have hbb := List.head?_dropWhile_not (fun d => !isSpaceC d) t
                rw [hdr] at hbb
                simpa using hbb
              rw [hdr, List.dropWhile_cons, if_pos hb] at h3
              right
              have h5 : hasSuffixMatch (b :: bs) = true := by
                rw [hasSuffixMatch_cons]
                simp only [suffixMatchHere, hb, Bool.true_and, h3, Bool.true_or]
              rw [hsplit, hdr]
              exact hasSuffixMatch_append _ _ h5
          · right
            rw [hsplit]
            exact hasSuffixMatch_append _ _ h4

theorem pySplit_tail_no_wordTok_aux : ∀ (n : Nat) (u : List Char), u.length ≤ n →
    (∀ c ∈ u, c ≠ '\n') → hasSuffixMatch u = false →
    (pySplit u).tail.any wordTok = false := by
  intro n
  induction n with
  | zero =>
    intro u hu _ _
    rw [List.length_eq_zero.mp (Nat.le_zero.mp hu)]
    rfl
  | succ n ih =>
    intro u hu hnl hsm
    cases u with
    | nil => rfl
    | cons c t =>
      have ht : t.length ≤ n := by
        rw [List.length_cons] at hu
        exact Nat.succ_le_succ_iff.mp hu
      have htn : ∀ d ∈ t, d ≠ '\n' := fun d hd => hnl d (List.mem_cons_of_mem c hd)
      rw [hasSuffixMatch_cons, Bool.or_eq_false_iff] at hsm
      cases hc : isSpaceC c with
      | true =>
        rw [pySplit_cons_space c t hc]
        exact ih t ht htn hsm.2
      | false =>
        rw [pySplit_cons_ne c t hc, List.tail_cons]
        cases hany : (pySplit (t.dropWhile (fun d => !isSpaceC d))).any wordTok with
        | false => rfl
        | true =>
          exfalso
          have ht' : (t.dropWhile (fun d => !isSpaceC d)).length ≤ n :=
            le_trans ((List.dropWhile_suffix _).length_le) ht
          have htn' : ∀ d ∈ t.dropWhile (fun d => !isSpaceC d), d ≠ '\n' :=
            fun d hd => htn d (List.Sublist.mem hd ((List.dropWhile_suffix _).sublist))
          have hts : t = t.takeWhile (fun d => !isSpaceC d) ++
              t.dropWhile (fun d => !isSpaceC d) := by
            rw [List.takeWhile_append_dropWhile]
          rcases pySplit_any_wordTok_aux n _ ht' htn' hany with h3 | h4
          · cases hdr : t.dropWhile (fun d => !isSpaceC d) with
            | nil =>
              rw [hdr, List.dropWhile_nil, tokenHere_nil] at h3
              exact Bool.false_ne_true h3
            | cons b bs =>
              have hb : isSpaceC b = true := by
                have hbb := List.head?_dropWhile_not (fun d => !isSpaceC d) t
                rw [hdr] at hbb
                simpa using hbb
              rw [hdr, List.dropWhile_cons, if_pos hb] at h3
              have h5 : hasSuffixMatch (b :: bs) = true := by
                rw [hasSuffixMatch_cons]
                simp only [suffixMatchHere, hb, Bool.true_and, h3, Bool.true_or]
              have h6 : hasSuffixMatch t = true := by
                rw [hts, hdr]
                exact hasSuffixMatch_append _ _ h5
              rw [hsm.2] at h6
              exact Bool.false_ne_true h6
          · have h6 : hasSuffixMatch t = true := by
              rw [hts]
              exact hasSuffixMatch_append _ _ h4
            rw [hsm.2] at h6
            exact Bool.false_ne_true h6

theorem hasSuffixMatch_collapseWs (u : List Char) (hnl : ∀ c ∈ u, c ≠ '\n')
    (hsm : hasSuffixMatch u = false) : hasSuffixMatch (collapseWs u) = false := by
  unfold collapseWs
  rw [hasSuffixMatch_joinSp (pySplit u) (pySplit_words u)]
  exact pySplit_tail_no_wordTok_aux u.length u (Nat.le_refl _) hnl hsm

/-- On clean input (no digits, hyphens, parentheses or newlines) the
normalizer reduces to lower-casing, one suffix-token substitution and a
whitespace collapse. -/
theorem normalize_input_clean (x : List Char) (hx : cleanInput x) :
    normalize_input x = collapseWs (suffixSub (lowerStr x)) := by
  have hl : cleanInput (lowerStr x) := cleanInput_lowerStr x hx
  have hnl : ∀ c ∈ lowerStr x, c ≠ '\n' := fun c hc => (hl c hc).2.2.2
  have hd : dosageSub (lowerStr x) = lowerStr x :=
    dosageSub_id _ (fun c hc => (hl c hc).1)
  obtain ⟨r, hr, _⟩ := suffixSub_pre (lowerStr x) hnl
  have hzmem : ∀ c ∈ suffixSub (lowerStr x), c ∈ lowerStr x := by
    intro c hc
    rw [hr]
    exact List.mem_append_left _ hc
  have hp : parenSub (suffixSub (lowerStr x)) = suffixSub (lowerStr x) :=
    parenSub_id _ (fun c hc => (hl c (hzmem c hc)).2.2.1)
  have hh : hyphenRep (collapseWs (suffixSub (lowerStr x))) =
      collapseWs (suffixSub (lowerStr x)) := by
    apply hyphenRep_id
    intro c hc
    rcases mem_collapseWs _ c hc with hm | rfl
    · exact (hl c (hzmem c hm)).2.1
    · decide
  unfold normalize_input
  rw [hd, hp, hh, collapseWs_idem, stripWs_collapseWs]

/-- C2: the normalizer is idempotent on inputs free of digits, hyphens,
parentheses and newlines. -/
theorem normalize_input_idempotent (x : List Char) (hx : cleanInput x) :
    normalize_input (normalize_input x) = normalize_input x := by
  have hl : cleanInput (lowerStr x) := cleanInput_lowerStr x hx
  have hnl : ∀ c ∈ lowerStr x, c ≠ '\n' := fun c hc => (hl c hc).2.2.2
  obtain ⟨r, hr, _⟩ := suffixSub_pre (lowerStr x) hnl
  have hzmem : ∀ c ∈ suffixSub (lowerStr x), c ∈ lowerStr x := by
    intro c hc
    rw [hr]
    exact List.mem_append_left _ hc
  have hymem : ∀ c ∈ collapseWs (suffixSub (lowerStr x)), c ∈ lowerStr x ∨ c = ' ' := by
    intro c hc
    rcases mem_collapseWs _ c hc with hm | hs
    · exact Or.inl (hzmem c hm)
    · exact Or.inr hs
  rw [normalize_input_clean x hx]
  have hyclean : cleanInput (collapseWs (suffixSub (lowerStr x))) := by
    intro c hc
    rcases hymem c hc with hm | rfl
    · exact hl c hm
    · exact ⟨by decide, by decide, by decide, by decide⟩
  rw [normalize_input_clean _ hyclean]
  have hly : lowerStr (collapseWs (suffixSub (lowerStr x))) =
      collapseWs (suffixSub (lowerStr x)) := by
    apply lowerStr_id
    intro c hc
    rcases hymem c hc with hm | rfl
    · rcases List.mem_map.mp hm with ⟨c0, _, rfl⟩
      exact lowerC_idem c0
    · decide
  rw [hly]
  have hysfx : suffixSub (collapseWs (suffixSub (lowerStr x))) =
      collapseWs (suffixSub (lowerStr x)) := by
    apply suffixSub_id_of_no_match
    apply hasSuffixMatch_collapseWs
    · intro c hc
      exact hnl c (hzmem c hc)
    · exact hasSuffixMatch_suffixSub (lowerStr x) hnl
  rw [hysfx, collapseWs_idem]

/-- C2 counterexample: `"5-mg"` normalizes to `"5 mg"`, which normalizes
to the empty string, so the normalizer is not idempotent on all inputs. -/
theorem normalize_not_idempotent :
    normalize_input (("5-mg").data) = ("5 mg").data ∧
      normalize_input (normalize_input (("5-mg").data)) = [] ∧
      normalize_input (normalize_input (("5-mg").data)) ≠
        normalize_input (("5-mg").data) :=
  ⟨by decide, by decide, by decide⟩

/-- Witness for C2 at a concrete clean input. -/
theorem normalize_input_idempotent_witness :
    cleanInput (("Sumatriptan oral").data) ∧
      normalize_input (normalize_input (("Sumatriptan oral").data)) =
        normalize_input (("Sumatriptan oral").data) :=
  ⟨by unfold cleanInput; decide,
    normalize_input_idempotent (("Sumatriptan oral").data) (by unfold cleanInput; decide)⟩
